import Mathlib

/-!
Verification of the `resumidor` document-section extraction pipeline.

This file gives a shallow embedding of the extraction and classification
core (EPUB / PDF section extraction) and proves the specification claims
about it.  Pure Python functions become Lean functions on `List Char`,
`String`, `Nat`, `Int` and `ℚ` (Python float arithmetic on ratios is
embedded as exact rational arithmetic; all comparisons in the source are
far from representation boundaries); the external libraries
(BeautifulSoup DOM, pdfplumber page text, html2text rendering) are
embedded as an explicit DOM tree type, a `pageText : Nat → String`
parameter, and a `render` parameter respectively.

Layout: all definitions first (each annotated with the source location it
embeds), then the theorems.
-/

/-! ## String helpers (Python semantics) -/

/-- Python whitespace for `str.split()` / `\s` (space, tab, CR, LF; the
rare form-feed / vertical-tab characters are not modelled). -/
def isPyWs (c : Char) : Bool :=
  c == ' ' || c == '\t' || c == '\r' || c == '\n'

/-- Number of maximal non-whitespace runs, i.e. `len(s.split())` in
Python.  `inWord` records whether the previous character was part of a
word. -/
def countWordsGo (inWord : Bool) : List Char → Nat
  | [] => 0
  | c :: cs =>
    if isPyWs c then countWordsGo false cs
    else (if inWord then 0 else 1) + countWordsGo true cs

/-- `len(s.split())`: the word count used by the 60-word minimum filter
(`extractor_base.py` line 53, `epub_extractor.py` line 180). -/
def pyWordCount (s : String) : Nat := countWordsGo false s.data

/-- Boolean list-prefix test. -/
def isPrefixB : List Char → List Char → Bool
  | [], _ => true
  | _ :: _, [] => false
  | a :: as, b :: bs => a == b && isPrefixB as bs

/-- Boolean contiguous-sublist test: `needle in hay` for Python strings. -/
def infixB (n : List Char) : List Char → Bool
  | [] => isPrefixB n []
  | c :: cs => isPrefixB n (c :: cs) || infixB n cs

/-- Python `needle in hay` on strings. -/
def containsSub (hay needle : String) : Bool := infixB needle.data hay.data

/-- Case table: ASCII letters plus the Spanish letters that appear in the
source regexes (`pdf_extractor.py` lines 55, 92).  Each pair is
(uppercase, lowercase). -/
def casePairs : List (Char × Char) :=
  [('A', 'a'), ('B', 'b'), ('C', 'c'), ('D', 'd'), ('E', 'e'), ('F', 'f'),
   ('G', 'g'), ('H', 'h'), ('I', 'i'), ('J', 'j'), ('K', 'k'), ('L', 'l'),
   ('M', 'm'), ('N', 'n'), ('O', 'o'), ('P', 'p'), ('Q', 'q'), ('R', 'r'),
   ('S', 's'), ('T', 't'), ('U', 'u'), ('V', 'v'), ('W', 'w'), ('X', 'x'),
   ('Y', 'y'), ('Z', 'z'), ('Á', 'á'), ('É', 'é'), ('Í', 'í'), ('Ó', 'ó'),
   ('Ú', 'ú'), ('Ü', 'ü'), ('Ñ', 'ñ')]

/-- Python `ch.lower()` restricted to the modelled alphabet. -/
def pyLowerChar (c : Char) : Char :=
  match casePairs.find? (fun p => p.1 == c) with
  | some p => p.2
  | none => c

/-- Python `ch.upper()` restricted to the modelled alphabet. -/
def pyUpperChar (c : Char) : Char :=
  match casePairs.find? (fun p => p.2 == c) with
  | some p => p.1
  | none => c

/-- A character that has case (a letter of the modelled alphabet).
Python `str.title()` treats exactly the cased characters as word
constituents. -/
def isCased (c : Char) : Bool :=
  casePairs.any (fun p => p.1 == c || p.2 == c)

/-- Python `s.lower()`. -/
def pyLowerStr (s : String) : String := String.mk (s.data.map pyLowerChar)

/-- Python `s.strip()` on a character list. -/
def pyStripL (l : List Char) : List Char :=
  ((l.dropWhile isPyWs).reverse.dropWhile isPyWs).reverse

/-- Python `s.strip()`. -/
def pyStrip (s : String) : String := String.mk (pyStripL s.data)

/-! ## TitleClassifier: `_skip_href` (`epub_extractor.py` lines 67-82)

The `_HREF_SKIP` regular expression is
`(?:^|/)(?:toc\.(?:ncx|x?html?)|nav\.(?:x?html?)|title|cover|copyright|
acknowledg|front|colophon|about|dedic|preface|foreword|prolog|epilog|
gloss|biblio|legal)|(?:^|/)index\.(?:x?html?)$`
applied with `re.search` to the lower-cased href.  It matches iff at the
start of the string or directly after a `/` either one of the listed
fragments occurs as a prefix, or `index.` followed by an html extension
occurs and ends the string. -/

/-- The unanchored path-fragment alternatives of `_HREF_SKIP`
(`toc.`/`nav.` with their extension alternations expanded). -/
def hrefSkipKeys : List String :=
  ["toc.ncx", "toc.html", "toc.htm", "toc.xhtml", "toc.xhtm",
   "nav.html", "nav.htm", "nav.xhtml", "nav.xhtm",
   "title", "cover", "copyright", "acknowledg", "front", "colophon",
   "about", "dedic", "preface", "foreword", "prolog", "epilog",
   "gloss", "biblio", "legal"]

/-- The end-anchored `index.(x)htm(l)` alternatives of `_HREF_SKIP`. -/
def hrefIndexKeys : List String :=
  ["index.html", "index.htm", "index.xhtml", "index.xhtm"]

/-- Whether `_HREF_SKIP` matches at one given position (the suffix `cs`
starting there): either an unanchored key is a prefix of the suffix, or
the whole suffix is exactly one of the anchored `index.*` filenames. -/
def hrefMatchAt (cs : List Char) : Bool :=
  hrefSkipKeys.any (fun k => isPrefixB k.data cs) ||
  hrefIndexKeys.any (fun k => k.data == cs)

/-- Scan all positions directly after a `/`. -/
def hrefScan : List Char → Bool
  | [] => false
  | c :: cs => (c == '/' && hrefMatchAt cs) || hrefScan cs

/-- `_skip_href` (`epub_extractor.py` lines 81-82): `IsNoiseLocator` of
the specification. -/
def _skip_href (href : String) : Bool :=
  let cs := (pyLowerStr href).data
  hrefMatchAt cs || hrefScan cs

/-! ## HierarchyFlattener: `flatten_toc` (`utils.py` lines 38-69)

EbookLib delivers the table of contents as a forest whose nodes are
either `epub.Link` objects (title, href), other title-carrying objects
(`epub.Section`), or tuples `(head, children)`. -/

/-- A TOC tree node as handled by `utils.flatten_toc`. -/
inductive TocNode where
  | link : String → String → TocNode
  | sec : String → String → TocNode
  | tup : TocNode → List TocNode → TocNode

mutual
/-- The `walk` loop of `utils.flatten_toc` over a node list, carrying the
output list (the `seen` set of the source always holds exactly the
appended pairs, so membership in the output models it). -/
def flattenForest (acc : List (String × String)) : List TocNode → List (String × String)
  | [] => acc
  | n :: rest => flattenForest (flattenNode acc n) rest
/-- One `walk` step of `utils.flatten_toc`: a `Link` appends its
`(title, href)` pair if unseen; a tuple recurses into `node[1]` only (its
head is never emitted); any other object is ignored. -/
def flattenNode (acc : List (String × String)) : TocNode → List (String × String)
  | .link t h => if (t, h) ∈ acc then acc else acc ++ [(t, h)]
  | .sec _ _ => acc
  | .tup _ ch => flattenForest acc ch
end

/-- `flatten_toc` (`utils.py` lines 38-69) on a forest. -/
def flatten_toc (nodes : List TocNode) : List (String × String) :=
  flattenForest [] nodes

mutual
/-- Reference (specification-side): the depth-first sequence of the
`(title, href)` pairs of all `Link` nodes of a forest, duplicates kept. -/
def dfsForest : List TocNode → List (String × String)
  | [] => []
  | n :: rest => dfsEntries n ++ dfsForest rest
/-- Reference (specification-side): depth-first `Link` entries of one
node. -/
def dfsEntries : TocNode → List (String × String)
  | .link t h => [(t, h)]
  | .sec _ _ => []
  | .tup _ ch => dfsForest ch
end

/-- Reference (specification-side): de-duplication keeping first
occurrences, folded over an already-kept prefix. -/
def dedupInto [DecidableEq α] (acc : List α) : List α → List α
  | [] => acc
  | x :: xs => dedupInto (if x ∈ acc then acc else acc ++ [x]) xs

/-- Reference (specification-side): first-occurrence de-duplication. -/
def dedupFirst [DecidableEq α] (l : List α) : List α := dedupInto [] l

/-! ## OutlineReliabilityScorer: `_outline_is_reliable`
(`pdf_extractor.py` lines 41-78)

Chapters are embedded as `(title, page_index)` pairs; Python float
ratios become exact rationals. -/

/-- Title normalization `dest.title.strip().lower()`
(`pdf_extractor.py` line 49). -/
def normTitle (t : String) : String := pyLowerStr (pyStrip t)

/-- The banned keywords of the `keywords_ok` signal
(`pdf_extractor.py` line 52). -/
def badKw : List String := ["cover", "copyright", "index"]

/-- A roman-numeral character (the regex class `[ivxlcdm]`). -/
def isRomanCh (c : Char) : Bool :=
  c == 'i' || c == 'v' || c == 'x' || c == 'l' || c == 'c' || c == 'd' || c == 'm'

/-- Whether a roman-numeral character immediately followed by a period
occurs (an occurrence of `[ivxlcdm]+\.` exists iff some roman character
is directly followed by `.`). -/
def romanDotScan : List Char → Bool
  | a :: b :: rest => (isRomanCh a && b == '.') || romanDotScan (b :: rest)
  | _ => false

/-- `cap_rx.search(t)` for the chapter-numbering pattern
`(cap[ií]tulo|chapter|\d+|[ivxlcdm]+\.)` (`pdf_extractor.py` line 55),
applied to the already lower-cased titles. -/
def capRxMatch (t : String) : Bool :=
  containsSub t "capítulo" || containsSub t "capitulo" ||
  containsSub t "chapter" || t.data.any Char.isDigit || romanDotScan t.data

/-- Consecutive page gaps `[b - a for a, b in zip(idxs, idxs[1:])]`
(`pdf_extractor.py` line 58), as integers since an unsorted outline can
give negative gaps. -/
def outlineDiffs (pages : List Nat) : List Int :=
  (pages.zip pages.tail).map (fun p => (p.2 : Int) - (p.1 : Int))

/-- Python `min` on a list, with `min([] or [0]) = 0` folded in
(`pdf_extractor.py` lines 58-59). -/
def minList : List Int → Int
  | [] => 0
  | x :: xs => xs.foldl min x

/-- Coverage signal: distinct referenced pages over total pages ≥ 0.6
(`pdf_extractor.py` lines 46-47, 63). -/
def sigCoverage (chapters : List (String × Nat)) (total_pages : Nat) : Bool :=
  decide ((((chapters.map (fun c => c.2)).toFinset.card : ℚ) / (total_pages : ℚ)) ≥ 0.6)

/-- Diversity signal: distinct normalized titles over all titles ≥ 0.4
(`pdf_extractor.py` lines 49-50, 64). -/
def sigDiversity (chapters : List (String × Nat)) : Bool :=
  let titles := chapters.map (fun c => normTitle c.1)
  decide (((titles.toFinset.card : ℚ) / (titles.length : ℚ)) ≥ 0.4)

/-- Keyword signal: none of the first three normalized titles contains a
banned keyword (`pdf_extractor.py` lines 52-53). -/
def sigKeywords (chapters : List (String × Nat)) : Bool :=
  !(((chapters.map (fun c => normTitle c.1)).take 3).any
      (fun t => badKw.any (fun b => containsSub t b)))

/-- Numbering signal: fraction of titles matching the chapter-numbering
pattern ≥ 0.3 (`pdf_extractor.py` lines 55-56, 66). -/
def sigNumeric (chapters : List (String × Nat)) : Bool :=
  decide (((((chapters.map (fun c => normTitle c.1)).filter capRxMatch).length : ℚ) /
    (chapters.length : ℚ)) ≥ 0.3)

/-- Distance signal: smallest consecutive page gap ≥ 3
(`pdf_extractor.py` lines 58-59, 67). -/
def sigMinDistance (chapters : List (String × Nat)) : Bool :=
  decide (3 ≤ minList (outlineDiffs (chapters.map (fun c => c.2))))

/-- The 0-5 reliability score (`pdf_extractor.py` lines 61-69). -/
def _outline_score (chapters : List (String × Nat)) (total_pages : Nat) : Nat :=
  (if sigCoverage chapters total_pages then 1 else 0) +
  (if sigDiversity chapters then 1 else 0) +
  (if sigKeywords chapters then 1 else 0) +
  (if sigNumeric chapters then 1 else 0) +
  (if sigMinDistance chapters then 1 else 0)

/-- `_outline_is_reliable` (`pdf_extractor.py` lines 41-78): `IsReliable`
of the specification. -/
def _outline_is_reliable (chapters : List (String × Nat)) (total_pages : Nat) : Bool :=
  if total_pages == 0 || chapters.length < 3 then false
  else decide (4 ≤ _outline_score chapters total_pages)

/-! ## Title cleanup: `_clean_title` (`pdf_extractor.py` lines 84-94) -/

/-- A dot-leader character of the regex class `[·•\.]`. -/
def isDotChar (c : Char) : Bool := c == '·' || c == '•' || c == '.'

/-- Scanner state for `re.sub(r"[·•\.]{2,}", " ", t)`: nothing pending, a
single pending dot character, or inside an already-replaced run. -/
inductive DotSt where
  | clear : DotSt
  | one : Char → DotSt
  | run : DotSt

/-- Replace every maximal run of two or more dot-leader characters by a
single space; runs of length one are kept (the `{2,}` quantifier). -/
def collapseDotsGo : DotSt → List Char → List Char
  | .clear, [] => []
  | .one d, [] => [d]
  | .run, [] => []
  | .clear, c :: cs =>
    if isDotChar c then collapseDotsGo (.one c) cs else c :: collapseDotsGo .clear cs
  | .one d, c :: cs =>
    if isDotChar c then ' ' :: collapseDotsGo .run cs
    else d :: c :: collapseDotsGo .clear cs
  | .run, c :: cs =>
    if isDotChar c then collapseDotsGo .run cs else c :: collapseDotsGo .clear cs

/-- `re.sub(r"[·•\.]{2,}", " ", t)` (`pdf_extractor.py` line 85). -/
def collapseDots (l : List Char) : List Char := collapseDotsGo .clear l

/-- `re.sub(r"\s+", " ", t)`: replace each maximal whitespace run by one
space; `prevWs` records whether the previous character was whitespace. -/
def collapseWsGo (prevWs : Bool) : List Char → List Char
  | [] => []
  | c :: cs =>
    if isPyWs c then
      (if prevWs then collapseWsGo true cs else ' ' :: collapseWsGo true cs)
    else c :: collapseWsGo false cs

/-- Python `t.split(" ")`: split at every single space character, keeping
empty parts (`"".split(" ") == [""]`). -/
def splitOnSpace : List Char → List (List Char)
  | [] => [[]]
  | c :: cs =>
    if c == ' ' then [] :: splitOnSpace cs
    else
      match splitOnSpace cs with
      | t :: ts => (c :: t) :: ts
      | [] => [[c]]

/-- The lookbehind class `[a-záéíóúñ]` of the letter-spacing repair regex
(`pdf_extractor.py` line 92). -/
def isLowerTrans (c : Char) : Bool :=
  ('a' ≤ c && c ≤ 'z') || c == 'á' || c == 'é' || c == 'í' || c == 'ó' ||
  c == 'ú' || c == 'ñ'

/-- The lookahead class `[A-ZÁÉÍÓÚÜÑ]` of the letter-spacing repair regex
(`pdf_extractor.py` line 92). -/
def isUpperTrans (c : Char) : Bool :=
  ('A' ≤ c && c ≤ 'Z') || c == 'Á' || c == 'É' || c == 'Í' || c == 'Ó' ||
  c == 'Ú' || c == 'Ü' || c == 'Ñ'

/-- `re.sub(r"(?<=[a-záéíóúñ])(?=[A-ZÁÉÍÓÚÜÑ])", " ", t)`: insert a
single space at every lowercase-to-uppercase boundary. -/
def insertGaps : List Char → List Char
  | a :: b :: rest =>
    if isLowerTrans a && isUpperTrans b then a :: ' ' :: insertGaps (b :: rest)
    else a :: insertGaps (b :: rest)
  | l => l

/-- One character of Python `str.title()`: a cased character is
upper-cased after a non-cased (or initial) position and lower-cased
after a cased one; non-cased characters pass through. -/
def titleChar (prevCased : Bool) (c : Char) : Char :=
  if isCased c then (if prevCased then pyLowerChar c else pyUpperChar c) else c

/-- Python `str.title()` scanner. -/
def pyTitleGo (prevCased : Bool) : List Char → List Char
  | [] => []
  | c :: cs => titleChar prevCased c :: pyTitleGo (isCased c) cs

/-- Python `t.title()`. -/
def pyTitle (l : List Char) : List Char := pyTitleGo false l

/-- The letter-spacing symptom test
`tokens and single_letters / len(tokens) >= 0.6`
(`pdf_extractor.py` line 90). -/
def singleRatioHigh (single len : Nat) : Bool :=
  len ≠ 0 && decide (((single : ℚ) / (len : ℚ)) ≥ 0.6)

/-- `_clean_title` (`pdf_extractor.py` lines 84-94): collapse dot
leaders, collapse whitespace and strip, repair letter-spaced titles (a
token list with ≥ 60% single-character tokens is joined and re-spaced at
case boundaries), then title-case and strip. -/
def _clean_title (t : String) : String :=
  let t1 := collapseDots t.data
  let t2 := pyStripL (collapseWsGo false t1)
  let tokens := splitOnSpace t2
  let single := (tokens.filter (fun w => w.length == 1)).length
  let t3 := if singleRatioHigh single tokens.length
            then insertGaps tokens.flatten
            else t2
  String.mk (pyStripL (pyTitle t3))

/-! ## ExtractionPipeline, PDF outline path
(`pdf_extractor.py` lines 34-36, 205-246)

The outline is embedded as the already-walked depth-0 chapter list
`(title, page_index)` and the depth-1 map `sub_map` keyed by the parent
chapter's start page; page text extraction (pdfplumber) is a
`pageText : Nat → String` parameter. -/

/-- Substantiality thresholds (`pdf_extractor.py` lines 34-36). -/
def MIN_PAGES_SUB : Nat := 3

/-- Minimum sub-chapter word count (`pdf_extractor.py` line 35). -/
def MIN_WORDS_SUB : Nat := 800

/-- Minimum sub-chapter to chapter page ratio (`pdf_extractor.py`
line 36). -/
def MIN_RATIO_SUB : ℚ := 0.25

/-- Python `range(s, e)` as a list (empty when `e ≤ s`). -/
def chapPages (s e : Nat) : List Nat := List.range' s (e - s)

/-- Page texts joined with newlines: `"\n".join(...)`
(`pdf_extractor.py` lines 225-227). -/
def joinPages (pageText : Nat → String) (pages : List Nat) : String :=
  String.intercalate "\n" (pages.map pageText)

/-- The substantiality test of the sub-chapter loop
(`pdf_extractor.py` lines 223-235): page count ≥ 3, or word count ≥ 800,
or page ratio to the chapter ≥ 0.25 (a ratio of 0 is used for an empty
chapter page range). -/
def subKeep (pageText : Nat → String) (chapLen ss se : Nat) : Bool :=
  let sub_pages := chapPages ss se
  let words_sub := pyWordCount (joinPages pageText sub_pages)
  let ratio : ℚ := if chapLen ≠ 0 then (sub_pages.length : ℚ) / (chapLen : ℚ) else 0
  sub_pages.length ≥ MIN_PAGES_SUB || words_sub ≥ MIN_WORDS_SUB ||
    decide (ratio ≥ MIN_RATIO_SUB)

/-- The sub-chapter loop of `PdfExtractor.__init__`
(`pdf_extractor.py` lines 217-237): each depth-1 entry ends at the next
entry's page (or the chapter end), and is kept iff it is substantial. -/
def subSections (pageText : Nat → String) (chapLen chap_end : Nat) :
    List (String × Nat) → List (String × List Nat)
  | [] => []
  | (st, ss) :: rest =>
    let sub_end := match rest with | (_, s2) :: _ => s2 | [] => chap_end
    if subKeep pageText chapLen ss sub_end
    then (_clean_title st, chapPages ss sub_end) ::
      subSections pageText chapLen chap_end rest
    else subSections pageText chapLen chap_end rest

/-- The chapter loop of `PdfExtractor.__init__`
(`pdf_extractor.py` lines 209-242): every chapter is emitted at level 2
(title defaulting to `Capítulo {idx+1}` when empty), followed by its
substantial sub-chapters at level 3. -/
def pdfBuildSections (pageText : Nat → String) (sub_map : Nat → List (String × Nat))
    (total : Nat) : List (String × Nat) → Nat → List (String × List Nat × Nat)
  | [], _ => []
  | (ct, cs) :: rest, idx =>
    let chap_end := match rest with | (_, c2) :: _ => c2 | [] => total
    let chap_pages := chapPages cs chap_end
    let subs := subSections pageText chap_pages.length chap_end (sub_map cs)
    (_clean_title (if ct = "" then "Capítulo " ++ toString (idx + 1) else ct), chap_pages, 2)
      :: (subs.map (fun p => (p.1, p.2, 3)) ++
          pdfBuildSections pageText sub_map total rest (idx + 1))

/-! ## TypographicSectionDetector, sectioning step
(`pdf_extractor.py` lines 161-169) -/

/-- The candidate-to-section loop (`pdf_extractor.py` lines 164-168):
each candidate `(page, title)` spans to the next candidate's page,
exclusively, the last one to `num_pages`. -/
def fontGo (num_pages : Nat) : List (Nat × String) → List (String × List Nat × Nat)
  | [] => []
  | (s, t) :: rest =>
    let e := match rest with | (s2, _) :: _ => s2 | [] => num_pages
    (t, chapPages s e, 2) :: fontGo num_pages rest

/-- `_detect_by_fonts`, final sectioning (`pdf_extractor.py` lines
161-169): fewer than two heading candidates produce no sections at all. -/
def sectionsFromCandidates (num_pages : Nat) (candidates : List (Nat × String)) :
    List (String × List Nat × Nat) :=
  if candidates.length < 2 then [] else fontGo num_pages candidates

/-- Specification-side helper: pair every list element with the key of
the next element (or a default for the last one); used to state the
next-sibling boundary structure of the three sectioning loops. -/
def attachNext (dflt : Nat) (key : α → Nat) : List α → List (α × Nat)
  | [] => []
  | a :: rest =>
    (a, match rest with | b :: _ => key b | [] => dflt) :: attachNext dflt key rest

/-! ## ExtractorBase (`extractor_base.py` lines 20-66)

The html2text-based Markdown conversion is an opaque `h2md` parameter;
the raw sections are the already-produced `(title, raw, level)` triples
of `_iter_raw_sections`, the fallback text is `_fallback_full_text()`. -/

/-- Minimum word count for a section to survive
(`extractor_base.py` line 23). -/
def MIN_WORDS : Nat := 60

/-- HTML-ness detection `"<" in raw[:200] and "</" in raw`
(`extractor_base.py` line 51). -/
def looksHtml (r : String) : Bool :=
  (r.data.take 200).contains '<' && containsSub r "</"

/-- Markdown conversion of one raw section
(`extractor_base.py` lines 48-52). -/
def rawToMd (h2md : String → String) (r : String) : String :=
  if looksHtml r then h2md r else pyStrip r

/-- `ExtractorBase.sections` (`extractor_base.py` lines 39-66): keep the
sections of at least `MIN_WORDS` words; if none survives, fall back to
the whole-book text as a single level-2 section titled `Libro completo`
(skipped when the fallback text, or its Markdown, is empty). -/
def base_sections (h2md : String → String) (raw : List (String × String × Nat))
    (fallback : String) : List (String × String × Nat) :=
  let out := raw.filterMap (fun r =>
    let md := rawToMd h2md r.2.1
    if MIN_WORDS ≤ pyWordCount md then some (r.1, md, r.2.2) else none)
  if out.isEmpty then
    let full := pyStrip fallback
    if full ≠ "" then
      let md := if looksHtml full then h2md full else full
      if md ≠ "" then [("Libro completo", md, 2)] else []
    else []
  else out

/-! ## EPUB extractor (`epub_extractor.py`)

A parsed resource (BeautifulSoup document) is embedded as a forest of
DOM nodes; an EPUB book as a list of `(href, document)` items.  The
html2text rendering of a node list is an opaque `render` parameter. -/

/-- A DOM node: a tag with name, `id` attribute, `name` attribute and
children, or a text node. -/
inductive Dom where
  | tag : String → Option String → Option String → List Dom → Dom
  | text : String → Dom

mutual
/-- Structural boolean equality on DOM nodes. -/
def Dom.beq : Dom → Dom → Bool
  | .text s, .text t => s == t
  | .tag a b c ch, .tag a2 b2 c2 ch2 =>
    a == a2 && b == b2 && c == c2 && Dom.forestBeq ch ch2
  | _, _ => false
/-- Structural boolean equality on DOM forests. -/
def Dom.forestBeq : List Dom → List Dom → Bool
  | [], [] => true
  | d :: ds, e :: es => Dom.beq d e && Dom.forestBeq ds es
  | _, _ => false
end

mutual
/-- Correctness of `Dom.beq` (proof-carrying definition used to build
the decidable-equality instance below). -/
def Dom.beqIff : ∀ (a b : Dom), Dom.beq a b = true ↔ a = b
  | .text s, .text t => by simp [Dom.beq]
  | .tag a b c ch, .tag a2 b2 c2 ch2 => by
    simp [Dom.beq, Dom.forestBeqIff ch ch2, and_assoc]
  | .text s, .tag a b c ch => by simp [Dom.beq]
  | .tag a b c ch, .text t => by simp [Dom.beq]
/-- Correctness of `Dom.forestBeq`. -/
def Dom.forestBeqIff : ∀ (l m : List Dom), Dom.forestBeq l m = true ↔ l = m
  | [], [] => by simp [Dom.forestBeq]
  | d :: ds, e :: es => by
    simp [Dom.forestBeq, Dom.beqIff d e, Dom.forestBeqIff ds es]
  | [], _ :: _ => by simp [Dom.forestBeq]
  | _ :: _, [] => by simp [Dom.forestBeq]
end

instance : DecidableEq Dom := fun a b =>
  decidable_of_iff (Dom.beq a b = true) (Dom.beqIff a b)

/-- The tags removed before slicing (`epub_extractor.py` line 104). -/
def noiseTags : List String := ["script", "style", "nav", "header", "footer"]

mutual
/-- One node of `soup.find_all([...]).decompose()`
(`epub_extractor.py` lines 104-105): a noise tag is removed together
with its subtree, any other node is kept with its children stripped. -/
def stripDomKeep : Dom → List Dom
  | .tag nm i n ch => if nm ∈ noiseTags then [] else [.tag nm i n (stripForest ch)]
  | .text s => [.text s]
/-- `soup.find_all([...]).decompose()` over a forest: remove the noise
tags together with their subtrees. -/
def stripForest : List Dom → List Dom
  | [] => []
  | d :: rest => stripDomKeep d ++ stripForest rest
end

mutual
/-- Document (pre-)order of a DOM node: the node, then its descendants;
`node.next_elements` of BeautifulSoup enumerates the document order
after a node. -/
def domPre : Dom → List Dom
  | .text s => [.text s]
  | .tag a b c ch => .tag a b c ch :: forestPre ch
/-- Document order of a forest. -/
def forestPre : List Dom → List Dom
  | [] => []
  | d :: ds => domPre d ++ forestPre ds
end

/-- Whether a node is a tag whose `id` attribute equals `frag`
(`soup.find(id=frag)`). -/
def isTagId (frag : String) : Dom → Bool
  | .tag _ (some s) _ _ => s == frag
  | _ => false

/-- Whether a node is a tag whose `name` attribute equals `frag`
(`soup.find(attrs={"name": frag})` written without braces here). -/
def isTagName (frag : String) : Dom → Bool
  | .tag _ _ (some s) _ => s == frag
  | _ => false

/-- First element satisfying `p` together with the list of elements
after it. -/
def findSplit (p : Dom → Bool) : List Dom → Option (Dom × List Dom)
  | [] => none
  | d :: rest => if p d then some (d, rest) else findSplit p rest

/-- `node.get("id") or node.get("name")` (`epub_extractor.py` line 114):
Python `or` falls through on a missing or empty `id`. -/
def pyOrAttr (idAttr nameAttr : Option String) : Option String :=
  match idAttr with
  | some s => if s == "" then nameAttr else some s
  | none => nameAttr

/-- The loop-break test `nxt and nid == nxt`
(`epub_extractor.py` lines 113-116): only tags can break the walk, and
only when `nxt` is a non-empty fragment equal to the node's id/name. -/
def isBoundary (nxt : Option String) : Dom → Bool
  | .tag _ i n _ =>
    match nxt with
    | some nx => nx ≠ "" && pyOrAttr i n == some nx
    | none => false
  | .text _ => false

/-- The slicing loop of `_section_md` (`epub_extractor.py` lines
111-117): the start node, then every following element in document order
up to (excluding) the first boundary node. -/
def sectionPieces (start : Dom) (rest : List Dom) (nxt : Option String) : List Dom :=
  start :: rest.takeWhile (fun n => !isBoundary nxt n)

/-- `_item_by_base` (`epub_extractor.py` lines 88-96): exact href lookup
with a fallback scan comparing hrefs after `lstrip("./")` (which strips
every leading `.` or `/` character). -/
def stripDotSlash (s : String) : List Char :=
  s.data.dropWhile (fun c => c == '.' || c == '/')

/-- `_item_by_base`, returning the resource's parsed document. -/
def _item_by_base (book : List (String × List Dom)) (base : String) :
    Option (List Dom) :=
  match book.find? (fun it => it.1 == base) with
  | some it => some it.2
  | none =>
    (book.find? (fun it => stripDotSlash it.1 == stripDotSlash base)).map
      (fun it => it.2)

/-- `_section_md` (`epub_extractor.py` lines 99-118): an unresolvable
base yields the empty string; a missing or empty fragment yields the
whole (noise-stripped) resource; otherwise the slice from the anchor up
to the boundary fragment.  `render` stands for the html2text conversion
of the selected pieces. -/
def _section_md (render : List Dom → String) (book : List (String × List Dom))
    (base frag : String) (nxt : Option String) : String :=
  match _item_by_base book base with
  | none => ""
  | some doc =>
    let doc2 := stripForest doc
    let pre := forestPre doc2
    let start? := if frag == "" then none
      else match findSplit (isTagId frag) pre with
        | some s => some s
        | none => findSplit (isTagName frag) pre
    match start? with
    | none => render doc2
    | some s => render (sectionPieces s.1 s.2 nxt)

/-- The chapter loop of `EpubExtractor.sections`
(`epub_extractor.py` lines 177-182): resolve each chapter
`(title, base, frag, nxt)` and keep it only when its Markdown has at
least 60 words. -/
def epubSectionsLoop (render : List Dom → String) (book : List (String × List Dom))
    (chapters : List (String × String × String × Option String)) :
    List (String × String) :=
  chapters.filterMap (fun c =>
    let md := _section_md render book c.2.1 c.2.2.1 c.2.2.2
    if pyWordCount md < MIN_WORDS then none else some (c.1, md))

/-- `EpubExtractor.sections` (`epub_extractor.py` lines 176-186): with a
non-empty chapter list, the filtered chapter loop; otherwise the
whole-book fallback `("Libro completo", full_md)` when the full-book
Markdown is non-empty. -/
def EpubExtractor_sections (render : List Dom → String)
    (book : List (String × List Dom))
    (chapters : List (String × String × String × Option String))
    (full_md : String) : List (String × String) :=
  if chapters.isEmpty then
    let md := pyStrip full_md
    if md ≠ "" then [("Libro completo", md)] else []
  else epubSectionsLoop render book chapters

/-- Specification-side example renderer standing in for html2text: the
text nodes of the given pieces in document order, joined by spaces. -/
def plainRender (l : List Dom) : String :=
  String.intercalate " "
    ((forestPre l).filterMap (fun d => match d with | .text s => some s | _ => none))

/-- Specification-side reliability signal count, worded as in the
specification with exact (cross-multiplied) threshold comparisons:
coverage ≥ 0.6, diversity ≥ 0.4, no banned keyword in the first three
titles, numbering ratio ≥ 0.3, minimum page gap ≥ 3. -/
def specSignalCount (chapters : List (String × Nat)) (tp : Nat) : Nat :=
  let pages := chapters.map (fun c => c.2)
  let titles := chapters.map (fun c => normTitle c.1)
  (if 3 * tp ≤ 5 * pages.toFinset.card then 1 else 0) +
  (if 2 * titles.length ≤ 5 * titles.toFinset.card then 1 else 0) +
  (if (∀ t ∈ titles.take 3, ∀ b ∈ badKw, ¬ (b.data <:+: t.data)) then 1 else 0) +
  (if 3 * chapters.length ≤ 10 * (titles.filter capRxMatch).length then 1 else 0) +
  (if (∀ d ∈ outlineDiffs pages, 3 ≤ d) then 1 else 0)

/-- Python `s.split(" ")` generalized to the whitespace class, keeping
empty parts. -/
def splitAnyWs : List Char → List (List Char)
  | [] => [[]]
  | c :: cs =>
    if isPyWs c then [] :: splitAnyWs cs
    else
      match splitAnyWs cs with
      | t :: ts => (c :: t) :: ts
      | [] => [[c]]

/-- The whitespace-separated words of a string (maximal non-whitespace
runs). -/
def wordsOf (l : List Char) : List (List Char) :=
  (splitAnyWs l).filter (fun w => w ≠ [])

/-- The letters (cased characters) of a word. -/
def lettersOf (w : List Char) : List Char := w.filter isCased

/-- Claim-side reading of title-cased for one whitespace-separated word:
its first letter is upper-cased and all its other letters are
lower-cased. -/
def wordTitledClaim (w : List Char) : Bool :=
  match lettersOf w with
  | [] => true
  | c :: rest => pyUpperChar c == c && rest.all (fun d => pyLowerChar d == d)

/-- Claim-side reading of title-cased for a string: every
whitespace-separated word is `wordTitledClaim`. -/
def titledClaim (s : String) : Bool := (wordsOf s.data).all wordTitledClaim

/-- Python `str.title()` fixed-point scanner: a cased character after a
non-cased (or initial) position must be fixed by upper-casing, after a
cased position fixed by lower-casing. -/
def titledFrom (prevCased : Bool) : List Char → Bool
  | [] => true
  | c :: cs =>
    (if isCased c then
      (if prevCased then pyLowerChar c == c else pyUpperChar c == c)
     else true) && titledFrom (isCased c) cs

/-- A string is Python-title-cased (it is a fixed point of
`str.title()`): each maximal run of cased characters starts with an
upper-case letter and continues with lower-case ones. -/
def pyTitledOk (s : String) : Bool := titledFrom false s.data

/-- No two adjacent whitespace characters. -/
def noAdjacentWs : List Char → Bool
  | a :: b :: rest => !(isPyWs a && isPyWs b) && noAdjacentWs (b :: rest)
  | _ => true

/-- Collapsed whitespace: no adjacent whitespace and no leading or
trailing whitespace. -/
def collapsedOk (s : String) : Bool :=
  noAdjacentWs s.data &&
  !(s.data.head?.elim false isPyWs) &&
  !(s.data.getLast?.elim false isPyWs)

/-- Concrete outline of claim C2: five chapters at pages 0, 50, 100,
150, 200 with distinct `Capítulo N` titles. -/
def c2Chapters : List (String × Nat) :=
  [("Capítulo 1", 0), ("Capítulo 2", 50), ("Capítulo 3", 100),
   ("Capítulo 4", 150), ("Capítulo 5", 200)]

/-- Concrete outline used by the claim C5 witness. -/
def c5Chapters : List (String × Nat) :=
  [("Capítulo 1", 0), ("Capítulo 2", 5), ("Capítulo 3", 10)]

/-- Concrete one-resource book whose chapter text is shorter than 60
words (claim C1). -/
def c1Book : List (String × List Dom) :=
  [("ch1.xhtml", [Dom.tag "p" none none [Dom.text "pocas palabras aquí"]])]

/-- Concrete chapter list of claim C1: one resolvable chapter whose
content stays below the word minimum. -/
def c1Chapters : List (String × String × String × Option String) :=
  [("Capítulo 1", "ch1.xhtml", "", none)]

/-- Concrete book of claim C8: only `ch1.xhtml` exists, with more than
60 words of text. -/
def c8Book : List (String × List Dom) :=
  [("ch1.xhtml", [Dom.tag "p" none none
    [Dom.text (String.intercalate " " (List.replicate 70 "palabra"))]])]

/-- Concrete DOM nodes for the claim C9 witness: a start anchor, a
following paragraph and the next section's boundary anchor. -/
def c9Start : Dom := Dom.tag "h1" (some "cap1") none [Dom.text "Capítulo 1"]

/-- The node between the two anchors of the claim C9 witness. -/
def c9Para : Dom := Dom.tag "p" none none [Dom.text "texto del capítulo uno"]

/-- The boundary anchor of the claim C9 witness. -/
def c9Boundary : Dom := Dom.tag "h1" (some "cap2") none [Dom.text "Capítulo 2"]

/-- Concrete page-text function for PDF witnesses. -/
def fixPageText : Nat → String := fun i => "palabras de la página " ++ toString i

/-- Concrete depth-1 outline map for PDF witnesses: two subchapters
under the chapter starting at page 0. -/
def fixSubMap : Nat → List (String × Nat) :=
  fun n => if n = 0 then [("intro breve", 0), ("desarrollo largo", 2)] else []

/-- Concrete TOC forest for the claim C3 witness: a duplicate link, and
a tuple headed by a non-link object. -/
def c3Nodes : List TocNode :=
  [TocNode.link "A" "a.xhtml", TocNode.link "A" "a.xhtml",
   TocNode.tup (TocNode.sec "Parte" "p.xhtml") [TocNode.link "B" "b.xhtml"]]

/-- Concrete TOC forest for the claim C3 counterexample: a composite
node that carries a title and locator in its head link. -/
def c3CexNodes : List TocNode :=
  [TocNode.tup (TocNode.link "Parte 1" "p1.xhtml")
    [TocNode.link "Ch 1" "ch1.xhtml"]]

/-- Concrete heading candidates for the claim C7 witness (the
specification's typographic scenario: headings on pages 4 and 9 of a
12-page document). -/
def c7Cands : List (Nat × String) :=
  [(4, "Capítulo Uno"), (9, "Capítulo Dos")]

/-- Concrete chapter outline for the claim C6 witness: an untitled
chapter at page 0 and a titled one at page 3, of 6 total pages. -/
def c6Chs : List (String × Nat) := [("", 0), ("Capítulo dos", 3)]

/-!
# Theorems

First the generic helper lemmas, then one theorem per specification
claim (with its witness or counterexample).
-/

theorem isPrefixB_iff : ∀ (n l : List Char), isPrefixB n l = true ↔ n <+: l
  | [], l => by simp [isPrefixB]
  | a :: as, [] => by simp [isPrefixB]
  | a :: as, b :: bs => by
    rw [isPrefixB, Bool.and_eq_true, beq_iff_eq, isPrefixB_iff as bs,
      List.cons_prefix_cons]

theorem infixB_iff : ∀ (n l : List Char), infixB n l = true ↔ n <:+: l
  | n, [] => by
    rw [infixB, isPrefixB_iff, List.prefix_nil, List.infix_nil]
  | n, c :: cs => by
    rw [infixB, Bool.or_eq_true, isPrefixB_iff, infixB_iff n cs,
      List.infix_cons_iff]

theorem containsSub_iff (hay needle : String) :
    containsSub hay needle = true ↔ needle.data <:+: hay.data :=
  infixB_iff needle.data hay.data

/-- C4: `IsNoiseLocator` rejects a bare `index.(x)html` filename by exact
filename match (`OEBPS/index.xhtml` is noise) but does not reject a
longer filename that merely contains `index` (`index_split_001.xhtml`),
nor an ordinary chapter file (`chapter01.xhtml`). -/
theorem c4_noise_locator_filenames :
    _skip_href "index_split_001.xhtml" = false ∧
    _skip_href "OEBPS/index.xhtml" = true ∧
    _skip_href "chapter01.xhtml" = false ∧
    _skip_href "index.xhtml" = true := by
  exact ⟨by decide, by decide, by decide, by decide⟩

theorem ratio_ge_iff (a b p q : Nat) (hb : 0 < b) (hq : 0 < q) :
    (((p : Nat) : ℚ) / ((q : Nat) : ℚ) ≤ ((a : Nat) : ℚ) / ((b : Nat) : ℚ)) ↔
      p * b ≤ a * q := by
  rw [div_le_div_iff₀ (by exact_mod_cast hq) (by exact_mod_cast hb)]
  constructor
  · intro h; exact_mod_cast h
  · intro h; exact_mod_cast h

theorem sigCoverage_iff (chapters : List (String × Nat)) (tp : Nat) (h : 0 < tp) :
    (sigCoverage chapters tp = true ↔
      3 * tp ≤ 5 * (chapters.map (fun c => c.2)).toFinset.card) := by
  rw [sigCoverage, decide_eq_true_eq, ge_iff_le,
    show (0.6 : ℚ) = ((3 : Nat) : ℚ) / ((5 : Nat) : ℚ) by norm_num,
    ratio_ge_iff _ tp 3 5 h (by norm_num)]
  omega

theorem sigDiversity_iff (chapters : List (String × Nat)) (h : chapters ≠ []) :
    (sigDiversity chapters = true ↔
      2 * (chapters.map (fun c => normTitle c.1)).length ≤
        5 * (chapters.map (fun c => normTitle c.1)).toFinset.card) := by
  have hl : 0 < (chapters.map (fun c => normTitle c.1)).length := by
    simpa using List.length_pos.mpr h
  simp only [sigDiversity, decide_eq_true_eq, ge_iff_le]
  rw [show (0.4 : ℚ) = ((2 : Nat) : ℚ) / ((5 : Nat) : ℚ) by norm_num,
    ratio_ge_iff _ _ 2 5 hl (by norm_num)]
  omega

theorem sigNumeric_iff (chapters : List (String × Nat)) (h : chapters ≠ []) :
    (sigNumeric chapters = true ↔
      3 * chapters.length ≤
        10 * ((chapters.map (fun c => normTitle c.1)).filter capRxMatch).length) := by
  have hl : 0 < chapters.length := List.length_pos.mpr h
  simp only [sigNumeric, decide_eq_true_eq, ge_iff_le]
  rw [show (0.3 : ℚ) = ((3 : Nat) : ℚ) / ((10 : Nat) : ℚ) by norm_num,
    ratio_ge_iff _ _ 3 10 hl (by norm_num)]
  omega

theorem sigKeywords_iff (chapters : List (String × Nat)) :
    (sigKeywords chapters = true ↔
      ∀ t ∈ (chapters.map (fun c => normTitle c.1)).take 3, ∀ b ∈ badKw,
        ¬ (b.data <:+: t.data)) := by
  rw [sigKeywords, Bool.not_eq_true', List.any_eq_false]
  refine forall₂_congr (fun t ht => ?_)
  rw [Bool.not_eq_true, List.any_eq_false]
  refine forall₂_congr (fun b hb => ?_)
  exact not_congr (containsSub_iff t b)

theorem foldl_min_ge_iff (c : Int) : ∀ (xs : List Int) (a : Int),
    (c ≤ xs.foldl min a ↔ c ≤ a ∧ ∀ d ∈ xs, c ≤ d)
  | [], a => by simp
  | x :: xs, a => by
    rw [List.foldl_cons, foldl_min_ge_iff c xs (min a x)]
    simp only [le_min_iff, List.mem_cons]
    constructor
    · rintro ⟨⟨h1, h2⟩, h3⟩
      exact ⟨h1, fun d hd => hd.elim (fun e => e ▸ h2) (h3 d)⟩
    · rintro ⟨h1, h2⟩
      exact ⟨⟨h1, h2 x (Or.inl rfl)⟩, fun d hd => h2 d (Or.inr hd)⟩

theorem minList_ge_iff (c : Int) (xs : List Int) (h : xs ≠ []) :
    (c ≤ minList xs ↔ ∀ d ∈ xs, c ≤ d) := by
  match xs, h with
  | x :: xs, _ =>
    rw [minList, foldl_min_ge_iff, List.forall_mem_cons]

theorem outlineDiffs_cons (x y : Nat) (l : List Nat) :
    outlineDiffs (x :: y :: l) = ((y : Int) - (x : Int)) :: outlineDiffs (y :: l) := by
  simp [outlineDiffs]

theorem outlineDiffs_ne_nil (l : List Nat) (h : 2 ≤ l.length) :
    outlineDiffs l ≠ [] := by
  match l, h with
  | x :: y :: rest, _ => rw [outlineDiffs_cons]; exact List.cons_ne_nil _ _

theorem sigMinDistance_iff (chapters : List (String × Nat))
    (h2 : 2 ≤ chapters.length) :
    (sigMinDistance chapters = true ↔
      ∀ d ∈ outlineDiffs (chapters.map (fun c => c.2)), 3 ≤ d) := by
  rw [sigMinDistance, decide_eq_true_eq,
    minList_ge_iff _ _ (outlineDiffs_ne_nil _ (by simpa using h2))]

theorem outline_score_eq (chapters : List (String × Nat)) (tp : Nat)
    (h0 : 0 < tp) (h3 : 3 ≤ chapters.length) :
    _outline_score chapters tp = specSignalCount chapters tp := by
  have hne : chapters ≠ [] := by
    intro hh; rw [hh] at h3; simp at h3
  have e1 : (if sigCoverage chapters tp then (1 : Nat) else 0) =
      (if 3 * tp ≤ 5 * (chapters.map (fun c => c.2)).toFinset.card then 1 else 0) :=
    if_congr (sigCoverage_iff chapters tp h0) rfl rfl
  have e2 : (if sigDiversity chapters then (1 : Nat) else 0) =
      (if 2 * (chapters.map (fun c => normTitle c.1)).length ≤
          5 * (chapters.map (fun c => normTitle c.1)).toFinset.card then 1 else 0) :=
    if_congr (sigDiversity_iff chapters hne) rfl rfl
  have e3 : (if sigKeywords chapters then (1 : Nat) else 0) =
      (if (∀ t ∈ (chapters.map (fun c : String × Nat => normTitle c.1)).take 3,
          ∀ b ∈ badKw, ¬ (b.data <:+: t.data)) then 1 else 0) :=
    if_congr (sigKeywords_iff chapters) rfl rfl
  have e4 : (if sigNumeric chapters then (1 : Nat) else 0) =
      (if 3 * chapters.length ≤
          10 * ((chapters.map (fun c => normTitle c.1)).filter capRxMatch).length
        then 1 else 0) :=
    if_congr (sigNumeric_iff chapters hne) rfl rfl
  have e5 : (if sigMinDistance chapters then (1 : Nat) else 0) =
      (if (∀ d ∈ outlineDiffs (chapters.map (fun c : String × Nat => c.2)), 3 ≤ d)
        then 1 else 0) :=
    if_congr (sigMinDistance_iff chapters (le_trans (by norm_num) h3)) rfl rfl
  simp only [_outline_score, specSignalCount]
  rw [e1, e2, e3, e4, e5]

/-- C5: `IsReliable` returns false whenever `totalPages = 0` or fewer
than 3 chapter entries exist; otherwise it returns true iff at least 4
of the 5 signals (coverage ≥ 0.6, diversity ≥ 0.4, keywords, numbering
ratio ≥ 0.3, minimum gap ≥ 3, counted by `specSignalCount` with exact
threshold comparisons) hold. -/
theorem c5_reliability_gate (chapters : List (String × Nat)) (tp : Nat) :
    (tp = 0 ∨ chapters.length < 3 → _outline_is_reliable chapters tp = false) ∧
    (tp ≠ 0 → 3 ≤ chapters.length →
      (_outline_is_reliable chapters tp = true ↔
        4 ≤ specSignalCount chapters tp)) := by
  constructor
  · intro h
    have hcond : (tp == 0 || decide (chapters.length < 3)) = true := by
      rcases h with h | h
      · subst h; simp
      · simp [h]
    simp [_outline_is_reliable, hcond]
  · intro h0 h3
    have hcond : (tp == 0 || decide (chapters.length < 3)) = false := by
      simp [h0, Nat.not_lt.mpr h3]
    simp only [_outline_is_reliable, hcond, Bool.false_eq_true, if_false,
      decide_eq_true_eq]
    rw [outline_score_eq chapters tp (Nat.pos_of_ne_zero h0) h3]

/-- Witness for C5 at a concrete three-chapter outline of 20 pages:
both gate hypotheses hold, the equivalence applies, and evaluating the
signals (4 of 5 hold: coverage fails, the rest hold) gives a reliable
outline. -/
theorem c5_witness :
    ((20 : Nat) ≠ 0) ∧ (3 ≤ c5Chapters.length) ∧
    (_outline_is_reliable c5Chapters 20 = true ↔
      4 ≤ specSignalCount c5Chapters 20) ∧
    _outline_is_reliable c5Chapters 20 = true := by
  have h := (c5_reliability_gate c5Chapters 20).2 (by norm_num) (by decide)
  exact ⟨by norm_num, by decide, h, h.mpr (by decide)⟩

/-- Counterexample to C2 as stated: at the claimed input (5 chapters at
pages 0, 50, 100, 150, 200 of a 200-page document) the coverage signal
is false (5 distinct pages over 200 is 0.025 < 0.6), so the score is
4 of 5, not 5 of 5. -/
theorem c2_counterexample :
    sigCoverage c2Chapters 200 = false ∧ _outline_score c2Chapters 200 = 4 := by
  constructor
  · rw [Bool.eq_false_iff]
    intro hh
    exact absurd ((sigCoverage_iff c2Chapters 200 (by norm_num)).mp hh) (by decide)
  · rw [outline_score_eq c2Chapters 200 (by norm_num) (by decide)]
    decide

/-- C2 (amended): at the claimed input `IsReliable` returns true, but
with four of the five signals holding (score 4/5): the coverage signal
(distinct referenced pages over total pages against 0.6) fails since
5/200 < 0.6, while diversity, keywords, numbering and minimum distance
hold. -/
theorem c2_reliability_example :
    _outline_is_reliable c2Chapters 200 = true ∧
    _outline_score c2Chapters 200 = 4 ∧
    sigCoverage c2Chapters 200 = false ∧
    sigDiversity c2Chapters = true ∧
    sigKeywords c2Chapters = true ∧
    sigNumeric c2Chapters = true ∧
    sigMinDistance c2Chapters = true := by
  refine ⟨?_, ?_, ?_, ?_, by decide, ?_, by decide⟩
  · rw [_outline_is_reliable,
      show ((200 : Nat) == 0 || decide (c2Chapters.length < 3)) = false from by decide]
    simp only [Bool.false_eq_true, if_false]
    rw [outline_score_eq c2Chapters 200 (by norm_num) (by decide)]
    decide
  · rw [outline_score_eq c2Chapters 200 (by norm_num) (by decide)]
    decide
  · rw [Bool.eq_false_iff]
    intro hh
    exact absurd ((sigCoverage_iff c2Chapters 200 (by norm_num)).mp hh) (by decide)
  · rw [sigDiversity_iff c2Chapters (by decide)]
    decide
  · rw [sigNumeric_iff c2Chapters (by decide)]
    decide

theorem dedupInto_append [DecidableEq α] (acc : List α) (l m : List α) :
    dedupInto acc (l ++ m) = dedupInto (dedupInto acc l) m := by
  induction l generalizing acc with
  | nil => rfl
  | cons x xs ih => rw [List.cons_append, dedupInto, dedupInto, ih]

mutual
theorem flattenForest_eq : ∀ (acc : List (String × String)) (ns : List TocNode),
    flattenForest acc ns = dedupInto acc (dfsForest ns)
  | acc, [] => rfl
  | acc, n :: rest => by
    rw [flattenForest, flattenNode_eq acc n, flattenForest_eq _ rest, dfsForest,
      dedupInto_append]
theorem flattenNode_eq : ∀ (acc : List (String × String)) (n : TocNode),
    flattenNode acc n = dedupInto acc (dfsEntries n)
  | acc, .link t h => by simp [flattenNode, dfsEntries, dedupInto]
  | acc, .sec t h => rfl
  | acc, .tup hd ch => flattenForest_eq acc ch
end

theorem dedupInto_sublist [DecidableEq α] : ∀ (l acc : List α),
    ∃ t, dedupInto acc l = acc ++ t ∧ t.Sublist l
  | [], acc => ⟨[], by simp [dedupInto]⟩
  | x :: xs, acc => by
    rw [dedupInto]
    by_cases h : x ∈ acc
    · rw [if_pos h]
      obtain ⟨t, ht, hs⟩ := dedupInto_sublist xs acc
      exact ⟨t, ht, hs.trans (List.sublist_cons_self x xs)⟩
    · rw [if_neg h]
      obtain ⟨t, ht, hs⟩ := dedupInto_sublist xs (acc ++ [x])
      refine ⟨x :: t, ?_, hs.cons₂ x⟩
      rw [ht, List.append_assoc, List.singleton_append]

theorem mem_dedupInto [DecidableEq α] : ∀ (l acc : List α) (x : α),
    x ∈ dedupInto acc l ↔ x ∈ acc ∨ x ∈ l
  | [], acc, x => by simp [dedupInto]
  | y :: ys, acc, x => by
    rw [dedupInto]
    by_cases h : y ∈ acc
    · rw [if_pos h, mem_dedupInto ys acc x, List.mem_cons]
      constructor
      · rintro (h1 | h1)
        · exact Or.inl h1
        · exact Or.inr (Or.inr h1)
      · rintro (h1 | h1 | h1)
        · exact Or.inl h1
        · exact Or.inl (h1 ▸ h)
        · exact Or.inr h1
    · rw [if_neg h, mem_dedupInto ys _ x, List.mem_append, List.mem_singleton,
        List.mem_cons, or_assoc]

theorem dedupInto_nodup [DecidableEq α] : ∀ (l acc : List α),
    acc.Nodup → (dedupInto acc l).Nodup
  | [], acc, h => h
  | x :: xs, acc, h => by
    rw [dedupInto]
    by_cases hx : x ∈ acc
    · rw [if_pos hx]; exact dedupInto_nodup xs acc h
    · rw [if_neg hx]
      refine dedupInto_nodup xs _ ?_
      exact h.append (List.nodup_singleton x)
        (fun a ha hb => by rw [List.mem_singleton] at hb; exact hx (hb ▸ ha))

/-- Counterexample to C3 as stated: `utils.flatten_toc` never emits the
entry of a composite (tuple) node's own head, even when that head is a
`Link` carrying a title and locator — only the children survive, so the
head's pair is missing from the output. -/
theorem c3_counterexample :
    flatten_toc c3CexNodes = [("Ch 1", "ch1.xhtml")] ∧
    ("Parte 1", "p1.xhtml") ∉ flatten_toc c3CexNodes :=
  ⟨by decide, by decide⟩

/-- C3 (amended): `utils.flatten_toc` returns exactly the depth-first
sequence of the `Link` leaf entries de-duplicated by `(title, locator)`
keeping first occurrences; the output has no duplicate pair, is an
order-preserving subsequence of the depth-first sequence, and contains
every depth-first entry.  A composite (tuple) node contributes only its
children: its own head entry is dropped even when it carries a
title/locator. -/
theorem c3_flatten_characterization (nodes : List TocNode) :
    flatten_toc nodes = dedupFirst (dfsForest nodes) ∧
    (flatten_toc nodes).Nodup ∧
    (flatten_toc nodes).Sublist (dfsForest nodes) ∧
    (∀ x ∈ dfsForest nodes, x ∈ flatten_toc nodes) := by
  have he : flatten_toc nodes = dedupInto [] (dfsForest nodes) :=
    flattenForest_eq [] nodes
  refine ⟨he, ?_, ?_, ?_⟩
  · rw [he]; exact dedupInto_nodup _ [] List.nodup_nil
  · rw [he]
    obtain ⟨t, ht, hs⟩ := dedupInto_sublist (dfsForest nodes) []
    rw [ht]; simpa using hs
  · intro x hx
    rw [he, mem_dedupInto]
    exact Or.inr hx

/-- Witness for C3 at a concrete forest with a duplicate link and a
tuple: the characterization applies and the membership hypothesis is
discharged at the entry of the tuple's child link. -/
theorem c3_witness :
    flatten_toc c3Nodes = dedupFirst (dfsForest c3Nodes) ∧
    (flatten_toc c3Nodes).Nodup ∧
    (flatten_toc c3Nodes).Sublist (dfsForest c3Nodes) ∧
    ("B", "b.xhtml") ∈ flatten_toc c3Nodes := by
  have h := c3_flatten_characterization c3Nodes
  exact ⟨h.1, h.2.1, h.2.2.1, h.2.2.2 ("B", "b.xhtml") (by decide)⟩

theorem attachNext_length (dflt : Nat) (key : α → Nat) :
    ∀ (l : List α), (attachNext dflt key l).length = l.length
  | [] => rfl
  | a :: rest => by
    show (attachNext dflt key (a :: rest)).length = rest.length + 1
    simp only [attachNext, List.length_cons, attachNext_length dflt key rest]

theorem attachNext_get? (dflt : Nat) (key : α → Nat) :
    ∀ (l : List α) (i : Nat),
      (attachNext dflt key l)[i]? =
        (l[i]?).map (fun a => (a, (l[i + 1]?).elim dflt key))
  | [], i => by simp [attachNext]
  | a :: rest, 0 => by
    cases rest with
    | nil => simp [attachNext]
    | cons b bs => simp [attachNext]
  | a :: rest, i + 1 => by
    simp only [attachNext, List.getElem?_cons_succ]
    rw [attachNext_get? dflt key rest i]

theorem mem_chapPages (p s e : Nat) : p ∈ chapPages s e ↔ s ≤ p ∧ p < e := by
  rw [chapPages, List.mem_range'_1]
  omega

theorem fontGo_eq (np : Nat) : ∀ (cands : List (Nat × String)),
    fontGo np cands = (attachNext np (fun c => c.1) cands).map
      (fun q => (q.1.2, chapPages q.1.1 q.2, 2))
  | [] => rfl
  | (s, t) :: rest => by
    cases rest with
    | nil => rw [fontGo, attachNext, List.map_cons, fontGo_eq np []]
    | cons b bs => rw [fontGo, attachNext, List.map_cons, fontGo_eq np (b :: bs)]

/-- C7: the typographic detector emits no sections with fewer than two
heading candidates; with two or more, section `i` carries candidate
`i`'s title at level 2 and spans from candidate `i`'s page up to but not
including the next candidate's page, the last section extending to the
document's final page (`num_pages` exclusive); membership in a span is
exactly `start ≤ p < end`. -/
theorem c7_font_sections (num_pages : Nat) (cands : List (Nat × String)) :
    (cands.length < 2 → sectionsFromCandidates num_pages cands = []) ∧
    (2 ≤ cands.length →
      (sectionsFromCandidates num_pages cands).length = cands.length ∧
      (∀ (i : Nat),
        (sectionsFromCandidates num_pages cands)[i]? = (cands[i]?).map (fun c =>
          (c.2, chapPages c.1 ((cands[i + 1]?).elim num_pages (fun d => d.1)), 2))) ∧
      (∀ s e p, p ∈ chapPages s e ↔ s ≤ p ∧ p < e)) := by
  constructor
  · intro h
    rw [sectionsFromCandidates, if_pos h]
  · intro h
    have hn : ¬ cands.length < 2 := Nat.not_lt.mpr h
    refine ⟨?_, ?_, fun s e p => mem_chapPages p s e⟩
    · rw [sectionsFromCandidates, if_neg hn, fontGo_eq, List.length_map,
        attachNext_length]
    · intro i
      rw [sectionsFromCandidates, if_neg hn, fontGo_eq, List.getElem?_map,
        attachNext_get?, Option.map_map]
      rfl

/-- Witness for C7 at the specification's typographic scenario
(candidates on pages 4 and 9, 12 pages): two sections, the first
spanning `[4, 9)`, and span membership evaluated at page 10 of the last
section. -/
theorem c7_witness :
    (2 ≤ c7Cands.length) ∧
    (sectionsFromCandidates 12 c7Cands).length = c7Cands.length ∧
    ((sectionsFromCandidates 12 c7Cands)[0]? = (c7Cands[0]?).map (fun c =>
      (c.2, chapPages c.1 ((c7Cands[1]?).elim 12 (fun d => d.1)), 2))) ∧
    (10 ∈ chapPages 9 12 ↔ 9 ≤ 10 ∧ 10 < 12) :=
  ⟨by decide, ((c7_font_sections 12 c7Cands).2 (by decide)).1,
   ((c7_font_sections 12 c7Cands).2 (by decide)).2.1 0,
   ((c7_font_sections 12 c7Cands).2 (by decide)).2.2 9 12 10⟩

theorem subSections_eq (pt : Nat → String) :
    ∀ (subs : List (String × Nat)) (cl ce : Nat),
    subSections pt cl ce subs =
      ((attachNext ce (fun c => c.2) subs).filter
          (fun q => subKeep pt cl q.1.2 q.2)).map
        (fun q => (_clean_title q.1.1, chapPages q.1.2 q.2))
  | [], cl, ce => rfl
  | (st, ss) :: rest, cl, ce => by
    have ih := subSections_eq pt rest cl ce
    cases rest with
    | nil =>
      have hstep : subSections pt cl ce [(st, ss)] =
          (if subKeep pt cl ss ce
            then (_clean_title st, chapPages ss ce) :: subSections pt cl ce []
            else subSections pt cl ce []) := rfl
      have hstep2 : attachNext ce (fun c : String × Nat => c.2) [(st, ss)] =
          [((st, ss), ce)] := rfl
      rw [hstep, hstep2, List.filter_cons, ih]
      by_cases h : subKeep pt cl ss ce
      · simp [h, attachNext]
      · simp [h, attachNext]
    | cons b bs =>
      have hstep : subSections pt cl ce ((st, ss) :: b :: bs) =
          (if subKeep pt cl ss b.2
            then (_clean_title st, chapPages ss b.2) ::
              subSections pt cl ce (b :: bs)
            else subSections pt cl ce (b :: bs)) := rfl
      have hstep2 : attachNext ce (fun c : String × Nat => c.2)
          ((st, ss) :: b :: bs) =
          ((st, ss), b.2) :: attachNext ce (fun c : String × Nat => c.2) (b :: bs) :=
        rfl
      rw [hstep, hstep2, List.filter_cons, ih]
      by_cases h : subKeep pt cl ss b.2
      · simp [h]
      · simp [h]

theorem pdfBuildSections_eq (pt : Nat → String) (sm : Nat → List (String × Nat))
    (total : Nat) : ∀ (chs : List (String × Nat)) (idx : Nat),
    pdfBuildSections pt sm total chs idx =
      (List.enumFrom idx (attachNext total (fun c => c.2) chs)).flatMap (fun q =>
        (_clean_title (if q.2.1.1 = "" then "Capítulo " ++ toString (q.1 + 1)
            else q.2.1.1),
          chapPages q.2.1.2 q.2.2, 2) ::
        (subSections pt (chapPages q.2.1.2 q.2.2).length q.2.2 (sm q.2.1.2)).map
          (fun p => (p.1, p.2, 3)))
  | [], idx => rfl
  | (ct, cs) :: rest, idx => by
    have ih := pdfBuildSections_eq pt sm total rest (idx + 1)
    cases rest with
    | nil =>
      have hstep : pdfBuildSections pt sm total [(ct, cs)] idx =
          (_clean_title (if ct = "" then "Capítulo " ++ toString (idx + 1) else ct),
            chapPages cs total, 2) ::
          ((subSections pt (chapPages cs total).length total (sm cs)).map
              (fun p => (p.1, p.2, 3)) ++
            pdfBuildSections pt sm total [] (idx + 1)) := rfl
      rw [hstep]
      rfl
    | cons b bs =>
      have hstep : pdfBuildSections pt sm total ((ct, cs) :: b :: bs) idx =
          (_clean_title (if ct = "" then "Capítulo " ++ toString (idx + 1) else ct),
            chapPages cs b.2, 2) ::
          ((subSections pt (chapPages cs b.2).length b.2 (sm cs)).map
              (fun p => (p.1, p.2, 3)) ++
            pdfBuildSections pt sm total (b :: bs) (idx + 1)) := rfl
      have hstep2 : List.enumFrom idx (attachNext total
          (fun c : String × Nat => c.2) ((ct, cs) :: b :: bs)) =
          (idx, (ct, cs), b.2) :: List.enumFrom (idx + 1)
            (attachNext total (fun c : String × Nat => c.2) (b :: bs)) := rfl
      rw [hstep, hstep2, ih, List.flatMap_cons]
      rfl

/-- C6: with a reliable outline, the PDF section list is built chapter
by chapter: every chapter (with its exclusive end boundary at the next
chapter's start page, the last at the total page count) is always
emitted at level 2 with its title cleaned (an empty title defaulting to
`Capítulo (idx+1)`), and a depth-1 outline entry under it is emitted as
a level-3 subchapter iff the substantiality test `subKeep` holds: page
count ≥ 3, or word count ≥ 800, or page ratio to the chapter ≥ 0.25
(the `filter` below).  The last conjunct instantiates the always-emitted
level-2 chapter entries. -/
theorem c6_outline_section_emission (pt : Nat → String)
    (sm : Nat → List (String × Nat)) (total : Nat) (chs : List (String × Nat))
    (idx : Nat) (subs : List (String × Nat)) (cl ce : Nat) :
    (subSections pt cl ce subs =
      ((attachNext ce (fun c => c.2) subs).filter
          (fun q => subKeep pt cl q.1.2 q.2)).map
        (fun q => (_clean_title q.1.1, chapPages q.1.2 q.2))) ∧
    (pdfBuildSections pt sm total chs idx =
      (List.enumFrom idx (attachNext total (fun c => c.2) chs)).flatMap (fun q =>
        (_clean_title (if q.2.1.1 = "" then "Capítulo " ++ toString (q.1 + 1)
            else q.2.1.1),
          chapPages q.2.1.2 q.2.2, 2) ::
        (subSections pt (chapPages q.2.1.2 q.2.2).length q.2.2 (sm q.2.1.2)).map
          (fun p => (p.1, p.2, 3)))) ∧
    (∀ q ∈ List.enumFrom idx (attachNext total (fun c => c.2) chs),
      (_clean_title (if q.2.1.1 = "" then "Capítulo " ++ toString (q.1 + 1)
          else q.2.1.1),
        chapPages q.2.1.2 q.2.2, 2) ∈ pdfBuildSections pt sm total chs idx) := by
  refine ⟨subSections_eq pt subs cl ce, pdfBuildSections_eq pt sm total chs idx, ?_⟩
  intro q hq
  rw [pdfBuildSections_eq pt sm total chs idx, List.mem_flatMap]
  exact ⟨q, hq, List.mem_cons_self _ _⟩

/-- Witness for C6 at a concrete two-chapter outline (an untitled
chapter at page 0, `Capítulo dos` at page 3, 6 pages total): the
emission characterization applies, and the always-emitted level-2 entry
of the first chapter is instantiated with its membership hypothesis
discharged concretely. -/
theorem c6_witness :
    ((0, (("", 0) : String × Nat), 3) ∈
      List.enumFrom 0 (attachNext 6 (fun c => c.2) c6Chs)) ∧
    (_clean_title "Capítulo 1", chapPages 0 3, 2) ∈
      pdfBuildSections fixPageText fixSubMap 6 c6Chs 0 := by
  have h := (c6_outline_section_emission fixPageText fixSubMap 6 c6Chs 0 [] 0 0).2.2
    (0, ("", 0), 3) (by decide)
  exact ⟨by decide, h⟩

/-- Counterexample to C1 as stated: a non-empty one-chapter EPUB whose
only chapter resolves to fewer than 60 words.  `EpubExtractor.sections`
yields zero entries, not one `Libro completo` entry: its whole-book
fallback is applied only when the chapter list itself is empty, not when
all chapters fail the word minimum. -/
theorem c1_counterexample :
    _section_md plainRender c1Book "ch1.xhtml" "" none = "pocas palabras aquí" ∧
    pyWordCount (_section_md plainRender c1Book "ch1.xhtml" "" none) < MIN_WORDS ∧
    EpubExtractor_sections plainRender c1Book c1Chapters "" = [] :=
  ⟨by decide, by decide, by decide⟩

/-- C1 (amended): the fallback guarantee holds for the shared
`ExtractorBase.sections` (used by the PDF extractor): when every raw
section falls below the 60-word minimum and the fallback text is
non-empty (with non-empty Markdown), exactly one level-2 entry titled
`Libro completo` is produced.  The EPUB extractor, however, yields no
entries at all when its chapter list is non-empty but every resolved
chapter falls below the minimum: its fallback fires only on an empty
chapter list. -/
theorem c1_fallback_amended :
    (∀ (h2md : String → String) (raw : List (String × String × Nat))
        (fallback : String),
      (∀ r ∈ raw, pyWordCount (rawToMd h2md r.2.1) < MIN_WORDS) →
      pyStrip fallback ≠ "" →
      (if looksHtml (pyStrip fallback) then h2md (pyStrip fallback)
        else pyStrip fallback) ≠ "" →
      base_sections h2md raw fallback =
        [("Libro completo",
          (if looksHtml (pyStrip fallback) then h2md (pyStrip fallback)
            else pyStrip fallback), 2)]) ∧
    (∀ (render : List Dom → String) (book : List (String × List Dom))
        (chapters : List (String × String × String × Option String))
        (full_md : String),
      chapters ≠ [] →
      (∀ c ∈ chapters,
        pyWordCount (_section_md render book c.2.1 c.2.2.1 c.2.2.2) < MIN_WORDS) →
      EpubExtractor_sections render book chapters full_md = []) := by
  constructor
  · intro h2md raw fallback hall hfb hmd
    have hout : (raw.filterMap (fun r =>
        let md := rawToMd h2md r.2.1
        if MIN_WORDS ≤ pyWordCount md then some (r.1, md, r.2.2) else none)) = [] := by
      rw [List.filterMap_eq_nil_iff]
      intro r hr
      show (if MIN_WORDS ≤ pyWordCount (rawToMd h2md r.2.1)
        then some (r.1, rawToMd h2md r.2.1, r.2.2) else none) = none
      exact if_neg (Nat.not_le.mpr (hall r hr))
    simp only [base_sections, hout, List.isEmpty_nil, if_true]
    rw [if_pos hfb, if_pos hmd]
  · intro render book chapters full_md hne hall
    have hcond : chapters.isEmpty = false := by
      simpa [List.isEmpty_iff] using hne
    simp only [EpubExtractor_sections, hcond, Bool.false_eq_true, if_false]
    rw [epubSectionsLoop, List.filterMap_eq_nil_iff]
    intro c hc
    show (if pyWordCount (_section_md render book c.2.1 c.2.2.1 c.2.2.2) < MIN_WORDS
      then none
      else some (c.1, _section_md render book c.2.1 c.2.2.1 c.2.2.2)) = none
    exact if_pos (hall c hc)

/-- Witness for C1 at concrete inputs: the base-extractor part at one
short raw section with a non-empty plain-text fallback, and the EPUB
part at the one-short-chapter book. -/
theorem c1_witness :
    ((∀ r ∈ [(("Corto", "muy corto", 2) : String × String × Nat)],
      pyWordCount (rawToMd (fun s => s) r.2.1) < MIN_WORDS) ∧
     pyStrip "texto completo del libro" ≠ "" ∧
     base_sections (fun s => s) [("Corto", "muy corto", 2)]
        "texto completo del libro" =
       [("Libro completo",
         (if looksHtml (pyStrip "texto completo del libro")
           then (fun s : String => s) (pyStrip "texto completo del libro")
           else pyStrip "texto completo del libro"), 2)]) ∧
    (c1Chapters ≠ [] ∧
     (∀ c ∈ c1Chapters,
       pyWordCount (_section_md plainRender c1Book c.2.1 c.2.2.1 c.2.2.2) <
         MIN_WORDS) ∧
     EpubExtractor_sections plainRender c1Book c1Chapters "" = []) := by
  constructor
  · exact ⟨by decide, by decide,
      c1_fallback_amended.1 (fun s => s) [("Corto", "muy corto", 2)]
        "texto completo del libro" (by decide) (by decide) (by decide)⟩
  · exact ⟨by decide, by decide,
      c1_fallback_amended.2 plainRender c1Book c1Chapters "" (by decide)
        (by decide)⟩

/-- C8: an EPUB section whose base resource resolves neither by exact
href lookup nor by the path-normalized scan produces no error (the
embedding is a total function): `_section_md` returns the empty string,
which fails the 60-word minimum, and the chapter loop output with that
chapter present equals the output without it — every other section is
unaffected. -/
theorem c8_missing_resource (render : List Dom → String)
    (book : List (String × List Dom)) (base : String)
    (h : _item_by_base book base = none) :
    (∀ (frag : String) (nxt : Option String),
      _section_md render book base frag nxt = "") ∧
    pyWordCount "" < MIN_WORDS ∧
    (∀ (l1 l2 : List (String × String × String × Option String))
        (t frag : String) (nxt : Option String),
      epubSectionsLoop render book (l1 ++ (t, base, frag, nxt) :: l2) =
        epubSectionsLoop render book (l1 ++ l2)) := by
  have hmd : ∀ (frag : String) (nxt : Option String),
      _section_md render book base frag nxt = "" := by
    intro frag nxt
    simp only [_section_md, h]
  refine ⟨hmd, by decide, ?_⟩
  intro l1 l2 t frag nxt
  rw [epubSectionsLoop, epubSectionsLoop, List.filterMap_append,
    List.filterMap_append]
  congr 1
  rw [List.filterMap_cons]
  have hnone : (if pyWordCount (_section_md render book base frag nxt) < MIN_WORDS
      then (none : Option (String × String))
      else some (t, _section_md render book base frag nxt)) = none := by
    rw [hmd frag nxt]
    rfl
  rw [hnone]

/-- Witness for C8 at a concrete book holding only `ch1.xhtml`: the
lookup of `missing.xhtml` fails, its section content is empty, and the
chapter loop with the broken chapter between or after valid ones equals
the loop without it (the `ch1.xhtml` chapter is unaffected). -/
theorem c8_witness :
    (_item_by_base c8Book "missing.xhtml" = none) ∧
    _section_md plainRender c8Book "missing.xhtml" "" none = "" ∧
    epubSectionsLoop plainRender c8Book
        ([("Existente", "ch1.xhtml", "", none)] ++
          ("Perdido", "missing.xhtml", "", none) :: []) =
      epubSectionsLoop plainRender c8Book
        ([("Existente", "ch1.xhtml", "", none)] ++ []) := by
  have h := c8_missing_resource plainRender c8Book "missing.xhtml" (by decide)
  exact ⟨by decide, h.1 "" none,
    h.2.2 [("Existente", "ch1.xhtml", "", none)] [] "Perdido" "" none⟩

theorem takeWhile_boundary (nxt : Option String) (B : Dom) (post : List Dom) :
    ∀ (pre : List Dom), isBoundary nxt B = true →
      (∀ n ∈ pre, isBoundary nxt n = false) →
      (pre ++ B :: post).takeWhile (fun n => !isBoundary nxt n) = pre
  | [], hB, _ => by
    rw [List.nil_append, List.takeWhile_cons_of_neg]
    simp [hB]
  | a :: rest, hB, hpre => by
    have ha : isBoundary nxt a = false := hpre a (List.mem_cons_self a rest)
    rw [List.cons_append, List.takeWhile_cons_of_pos (by simp [ha]),
      takeWhile_boundary nxt B post rest hB
        (fun n hn => hpre n (List.mem_cons_of_mem a hn))]

/-- C9: boundary exclusivity for adjacent sections sharing a boundary X.
EPUB: the slicing loop of `_section_md`, walking the elements after the
anchor, stops just before the first boundary node `B` (the node whose
id/name equals the next same-resource fragment), so the pieces are
exactly the start node and the strictly-pre-boundary elements, and — for
a duplicate-free traversal — no node at or after `B` is included.
PDF: for two adjacent outline chapters, the first one's emitted page
range is `chapPages cs ns`, every element of which is strictly below the
second's start page `ns`; likewise for two adjacent depth-1 subchapter
entries (when the first is emitted at all) and for two adjacent
typographic heading candidates. -/
theorem c9_boundary_exclusivity :
    (∀ (start B : Dom) (pre post : List Dom) (nx : Option String),
      isBoundary nx B = true →
      (∀ n ∈ pre, isBoundary nx n = false) →
      sectionPieces start (pre ++ B :: post) nx = start :: pre ∧
      ((start :: pre ++ B :: post).Nodup →
        ∀ y ∈ B :: post, y ∉ sectionPieces start (pre ++ B :: post) nx)) ∧
    (∀ (pt : Nat → String) (sm : Nat → List (String × Nat)) (total : Nat)
        (ct : String) (cs : Nat) (nt : String) (ns : Nat)
        (rest : List (String × Nat)) (idx : Nat),
      ∃ ttl tail, pdfBuildSections pt sm total ((ct, cs) :: (nt, ns) :: rest) idx =
        (ttl, chapPages cs ns, 2) :: tail ∧ ∀ p ∈ chapPages cs ns, p < ns) ∧
    (∀ (pt : Nat → String) (cl ce : Nat) (st : String) (ss : Nat) (st2 : String)
        (ss2 : Nat) (rest : List (String × Nat)),
      ∃ tail, subSections pt cl ce ((st, ss) :: (st2, ss2) :: rest) =
        (if subKeep pt cl ss ss2
          then [(_clean_title st, chapPages ss ss2)] else []) ++ tail ∧
        ∀ p ∈ chapPages ss ss2, p < ss2) ∧
    (∀ (np s : Nat) (t : String) (s2 : Nat) (t2 : String)
        (rest : List (Nat × String)),
      ∃ tail, sectionsFromCandidates np ((s, t) :: (s2, t2) :: rest) =
        (t, chapPages s s2, 2) :: tail ∧ ∀ p ∈ chapPages s s2, p < s2) := by
  refine ⟨?_, ?_, ?_, ?_⟩
  · intro start B pre post nx hB hpre
    have hpieces : sectionPieces start (pre ++ B :: post) nx = start :: pre := by
      rw [sectionPieces, takeWhile_boundary nx B post pre hB hpre]
    refine ⟨hpieces, ?_⟩
    intro hnd y hy hmem
    rw [hpieces] at hmem
    exact List.disjoint_of_nodup_append hnd hmem hy
  · intro pt sm total ct cs nt ns rest idx
    refine ⟨_, _, rfl, fun p hp => ((mem_chapPages p cs ns).mp hp).2⟩
  · intro pt cl ce st ss st2 ss2 rest
    refine ⟨subSections pt cl ce ((st2, ss2) :: rest), ?_,
      fun p hp => ((mem_chapPages p ss ss2).mp hp).2⟩
    have hstep : subSections pt cl ce ((st, ss) :: (st2, ss2) :: rest) =
        (if subKeep pt cl ss ss2
          then (_clean_title st, chapPages ss ss2) ::
            subSections pt cl ce ((st2, ss2) :: rest)
          else subSections pt cl ce ((st2, ss2) :: rest)) := rfl
    rw [hstep]
    by_cases h : subKeep pt cl ss ss2
    · rw [if_pos h, if_pos h]
      rfl
    · rw [if_neg h, if_neg h]
      rfl
  · intro np s t s2 t2 rest
    refine ⟨fontGo np ((s2, t2) :: rest), ?_,
      fun p hp => ((mem_chapPages p s s2).mp hp).2⟩
    rw [sectionsFromCandidates,
      if_neg (by simp only [List.length_cons]; omega)]
    rfl

/-- Witness for C9 at a concrete three-node traversal (anchor `cap1`,
one paragraph, boundary anchor `cap2`): the slice is exactly the anchor
and the paragraph, the boundary node is excluded, and a concrete PDF
chapter pair instance. -/
theorem c9_witness :
    (isBoundary (some "cap2") c9Boundary = true) ∧
    (∀ n ∈ [c9Para], isBoundary (some "cap2") n = false) ∧
    (c9Start :: [c9Para] ++ c9Boundary :: []).Nodup ∧
    sectionPieces c9Start ([c9Para] ++ c9Boundary :: []) (some "cap2") =
      c9Start :: [c9Para] ∧
    c9Boundary ∉
      sectionPieces c9Start ([c9Para] ++ c9Boundary :: []) (some "cap2") ∧
    (∃ ttl tail,
      pdfBuildSections fixPageText fixSubMap 6
          [("Capítulo uno", 0), ("Capítulo dos", 3)] 0 =
        (ttl, chapPages 0 3, 2) :: tail ∧ ∀ p ∈ chapPages 0 3, p < 3) := by
  have h := c9_boundary_exclusivity.1 c9Start c9Boundary [c9Para] []
    (some "cap2") (by decide) (by decide)
  refine ⟨by decide, by decide, by decide, h.1, ?_, ?_⟩
  · exact h.2 (by decide) c9Boundary (List.mem_cons_self _ _)
  · exact c9_boundary_exclusivity.2.1 fixPageText fixSubMap 6 "Capítulo uno" 0
      "Capítulo dos" 3 [] 0

theorem casePairs_facts : ∀ p ∈ casePairs,
    pyUpperChar p.1 = p.1 ∧ pyLowerChar p.2 = p.2 ∧ isCased p.1 = true ∧
    isCased p.2 = true ∧ pyLowerChar p.1 = p.2 ∧ pyUpperChar p.2 = p.1 := by
  decide

theorem pyLower_idem (c : Char) : pyLowerChar (pyLowerChar c) = pyLowerChar c := by
  cases hf : casePairs.find? (fun p => p.1 == c) with
  | none =>
    have h1 : pyLowerChar c = c := by rw [pyLowerChar, hf]
    rw [h1, h1]
  | some p =>
    have hp : p ∈ casePairs := List.mem_of_find?_eq_some hf
    have h1 : pyLowerChar c = p.2 := by rw [pyLowerChar, hf]
    rw [h1]
    exact (casePairs_facts p hp).2.1

theorem pyUpper_idem (c : Char) : pyUpperChar (pyUpperChar c) = pyUpperChar c := by
  cases hf : casePairs.find? (fun p => p.2 == c) with
  | none =>
    have h1 : pyUpperChar c = c := by rw [pyUpperChar, hf]
    rw [h1, h1]
  | some p =>
    have hp : p ∈ casePairs := List.mem_of_find?_eq_some hf
    have h1 : pyUpperChar c = p.1 := by rw [pyUpperChar, hf]
    rw [h1]
    exact (casePairs_facts p hp).1

theorem isCased_pyLower (c : Char) : isCased (pyLowerChar c) = isCased c := by
  cases hf : casePairs.find? (fun p => p.1 == c) with
  | none =>
    have h1 : pyLowerChar c = c := by rw [pyLowerChar, hf]
    rw [h1]
  | some p =>
    have hp : p ∈ casePairs := List.mem_of_find?_eq_some hf
    have h1 : pyLowerChar c = p.2 := by rw [pyLowerChar, hf]
    have hc : p.1 = c := by simpa using List.find?_some hf
    rw [h1, (casePairs_facts p hp).2.2.2.1, ← hc, (casePairs_facts p hp).2.2.1]

theorem isCased_pyUpper (c : Char) : isCased (pyUpperChar c) = isCased c := by
  cases hf : casePairs.find? (fun p => p.2 == c) with
  | none =>
    have h1 : pyUpperChar c = c := by rw [pyUpperChar, hf]
    rw [h1]
  | some p =>
    have hp : p ∈ casePairs := List.mem_of_find?_eq_some hf
    have h1 : pyUpperChar c = p.1 := by rw [pyUpperChar, hf]
    have hc : p.2 = c := by simpa using List.find?_some hf
    rw [h1, (casePairs_facts p hp).2.2.1, ← hc, (casePairs_facts p hp).2.2.2.1]

theorem ws_not_cased (c : Char) (h : isPyWs c = true) : isCased c = false := by
  rw [isPyWs] at h
  have h2 : ((c = ' ' ∨ c = '\t') ∨ c = '\r') ∨ c = '\n' := by simpa using h
  rcases h2 with ((rfl | rfl) | rfl) | rfl <;> decide

theorem isCased_titleChar (p : Bool) (c : Char) :
    isCased (titleChar p c) = isCased c := by
  rw [titleChar]
  by_cases hc : isCased c
  · rw [if_pos hc]
    cases p
    · rw [if_neg (by simp), isCased_pyUpper]
    · rw [if_pos rfl, isCased_pyLower]
  · rw [if_neg hc]

theorem titledFrom_pyTitleGo : ∀ (l : List Char) (p : Bool),
    titledFrom p (pyTitleGo p l) = true
  | [], p => rfl
  | c :: cs, p => by
    have hstep : pyTitleGo p (c :: cs) =
        titleChar p c :: pyTitleGo (isCased c) cs := rfl
    have hunf : titledFrom p (titleChar p c :: pyTitleGo (isCased c) cs) =
        ((if isCased (titleChar p c) then
            (if p then pyLowerChar (titleChar p c) == titleChar p c
              else pyUpperChar (titleChar p c) == titleChar p c)
          else true) &&
          titledFrom (isCased (titleChar p c)) (pyTitleGo (isCased c) cs)) := rfl
    rw [hstep, hunf, isCased_titleChar, Bool.and_eq_true]
    refine ⟨?_, titledFrom_pyTitleGo cs (isCased c)⟩
    by_cases hc : isCased c
    · rw [if_pos hc]
      cases p
      · have ht : titleChar false c = pyUpperChar c := by
          rw [titleChar, if_pos hc]
          rfl
        rw [if_neg (by simp), ht, pyUpper_idem]
        exact beq_self_eq_true _
      · have ht : titleChar true c = pyLowerChar c := by
          rw [titleChar, if_pos hc]
          rfl
        rw [if_pos rfl, ht, pyLower_idem]
        exact beq_self_eq_true _
    · rw [if_neg hc]

theorem titledFrom_append : ∀ (a b : List Char) (p : Bool),
    titledFrom p (a ++ b) = true → titledFrom p a = true
  | [], b, p, _ => rfl
  | c :: cs, b, p, h => by
    rw [List.cons_append] at h
    have hunf : titledFrom p (c :: (cs ++ b)) =
        ((if isCased c then
            (if p then pyLowerChar c == c else pyUpperChar c == c)
          else true) && titledFrom (isCased c) (cs ++ b)) := rfl
    rw [hunf, Bool.and_eq_true] at h
    have hunf2 : titledFrom p (c :: cs) =
        ((if isCased c then
            (if p then pyLowerChar c == c else pyUpperChar c == c)
          else true) && titledFrom (isCased c) cs) := rfl
    rw [hunf2, Bool.and_eq_true]
    exact ⟨h.1, titledFrom_append cs b (isCased c) h.2⟩

theorem titledFrom_dropWhile_ws : ∀ (l : List Char),
    titledFrom false l = true → titledFrom false (l.dropWhile isPyWs) = true
  | [], h => h
  | c :: cs, h => by
    rw [List.dropWhile_cons]
    by_cases hw : isPyWs c
    · rw [if_pos hw]
      apply titledFrom_dropWhile_ws cs
      have hunf : titledFrom false (c :: cs) =
          ((if isCased c then (pyUpperChar c == c) else true) &&
            titledFrom (isCased c) cs) := rfl
      rw [hunf, Bool.and_eq_true, ws_not_cased c hw] at h
      exact h.2
    · rw [if_neg hw]
      exact h

theorem dropWhile_strip_decomp (l : List Char) :
    l.dropWhile isPyWs =
      pyStripL l ++ ((l.dropWhile isPyWs).reverse.takeWhile isPyWs).reverse := by
  rw [pyStripL]
  conv_lhs => rw [← List.reverse_reverse (l.dropWhile isPyWs),
    ← List.takeWhile_append_dropWhile isPyWs (l.dropWhile isPyWs).reverse,
    List.reverse_append]

theorem titled_strip_title (l : List Char) :
    titledFrom false (pyStripL (pyTitle l)) = true := by
  have h2 := titledFrom_dropWhile_ws (pyTitle l) (titledFrom_pyTitleGo l false)
  rw [dropWhile_strip_decomp (pyTitle l)] at h2
  exact titledFrom_append _ _ false h2

theorem cased_not_ws (c : Char) (h : isCased c = true) : isPyWs c = false := by
  cases hw : isPyWs c
  · rfl
  · rw [ws_not_cased c hw] at h
    exact absurd h (by simp)

theorem isPyWs_titleChar (p : Bool) (c : Char) :
    isPyWs (titleChar p c) = isPyWs c := by
  rw [titleChar]
  by_cases hc : isCased c
  · rw [if_pos hc, cased_not_ws c hc]
    cases p
    · rw [if_neg (by simp)]
      exact cased_not_ws _ (by rw [isCased_pyUpper, hc])
    · rw [if_pos rfl]
      exact cased_not_ws _ (by rw [isCased_pyLower, hc])
  · rw [if_neg hc]

theorem noAdj_cons (a : Char) (xs : List Char) :
    noAdjacentWs (a :: xs) =
      ((xs.head?.elim true (fun b => !(isPyWs a && isPyWs b))) &&
        noAdjacentWs xs) := by
  cases xs <;> rfl

theorem noAdj_cons_tail (x : Char) (xs : List Char)
    (h : noAdjacentWs (x :: xs) = true) : noAdjacentWs xs = true := by
  cases xs with
  | nil => rfl
  | cons y t =>
    have hunf : noAdjacentWs (x :: y :: t) =
        (!(isPyWs x && isPyWs y) && noAdjacentWs (y :: t)) := rfl
    rw [hunf, Bool.and_eq_true] at h
    exact h.2

theorem noAdj_of_append_right : ∀ (a b : List Char),
    noAdjacentWs (a ++ b) = true → noAdjacentWs b = true
  | [], _, h => h
  | x :: xs, b, h => by
    apply noAdj_of_append_right xs b
    exact noAdj_cons_tail x (xs ++ b) (by rwa [List.cons_append] at h)

theorem noAdj_of_append_left : ∀ (a b : List Char),
    noAdjacentWs (a ++ b) = true → noAdjacentWs a = true
  | [], _, _ => rfl
  | [x], _, _ => rfl
  | x :: y :: t, b, h => by
    have hunf2 : noAdjacentWs (x :: y :: t) =
        (!(isPyWs x && isPyWs y) && noAdjacentWs (y :: t)) := rfl
    rw [hunf2, Bool.and_eq_true]
    have hh : noAdjacentWs ((x :: y :: t) ++ b) =
        (!(isPyWs x && isPyWs y) && noAdjacentWs ((y :: t) ++ b)) := rfl
    rw [hh, Bool.and_eq_true] at h
    exact ⟨h.1, noAdj_of_append_left (y :: t) b h.2⟩

theorem noAdj_pyTitleGo : ∀ (l : List Char) (p : Bool),
    noAdjacentWs l = true → noAdjacentWs (pyTitleGo p l) = true
  | [], _, _ => rfl
  | [_], _, _ => rfl
  | a :: b :: t, p, h => by
    have hstep : pyTitleGo p (a :: b :: t) =
        titleChar p a :: titleChar (isCased a) b :: pyTitleGo (isCased b) t := rfl
    have hunf : noAdjacentWs (titleChar p a :: titleChar (isCased a) b ::
        pyTitleGo (isCased b) t) =
        (!(isPyWs (titleChar p a) && isPyWs (titleChar (isCased a) b)) &&
          noAdjacentWs (titleChar (isCased a) b :: pyTitleGo (isCased b) t)) := rfl
    rw [hstep, hunf, isPyWs_titleChar, isPyWs_titleChar, Bool.and_eq_true]
    have hh : noAdjacentWs (a :: b :: t) =
        (!(isPyWs a && isPyWs b) && noAdjacentWs (b :: t)) := rfl
    rw [hh, Bool.and_eq_true] at h
    exact ⟨h.1, noAdj_pyTitleGo (b :: t) (isCased a) h.2⟩

theorem noAdj_pyStripL (l : List Char) (h : noAdjacentWs l = true) :
    noAdjacentWs (pyStripL l) = true := by
  have h1 : noAdjacentWs (l.dropWhile isPyWs) = true := by
    apply noAdj_of_append_right (l.takeWhile isPyWs)
    rw [List.takeWhile_append_dropWhile]
    exact h
  rw [dropWhile_strip_decomp l] at h1
  exact noAdj_of_append_left _ _ h1

theorem head?_dropWhile_elim (p : Char → Bool) :
    ∀ (l : List Char), ((l.dropWhile p).head?.elim false p) = false
  | [] => rfl
  | c :: cs => by
    rw [List.dropWhile_cons]
    by_cases h : p c
    · rw [if_pos h]
      exact head?_dropWhile_elim p cs
    · rw [if_neg h]
      simpa using h

theorem pyStripL_last (l : List Char) :
    ((pyStripL l).getLast?.elim false isPyWs) = false := by
  rw [pyStripL, List.getLast?_reverse]
  exact head?_dropWhile_elim isPyWs _

theorem getLast?_dropWhile_elim (p : Char → Bool) (M : List Char)
    (h : (M.getLast?.elim false p) = false) :
    ((M.dropWhile p).getLast?.elim false p) = false := by
  have hsuf : M.dropWhile p <:+ M := List.dropWhile_suffix p
  obtain ⟨s, hs⟩ := hsuf
  by_cases hd : M.dropWhile p = []
  · rw [hd]
    rfl
  · have h2 : M.getLast? = (M.dropWhile p).getLast? := by
      conv_lhs => rw [← hs]
      rw [List.getLast?_append_of_ne_nil s hd]
    rw [← h2]
    exact h

theorem pyStripL_head (l : List Char) :
    ((pyStripL l).head?.elim false isPyWs) = false := by
  rw [pyStripL, List.head?_reverse]
  apply getLast?_dropWhile_elim
  rw [List.getLast?_reverse]
  exact head?_dropWhile_elim isPyWs l

theorem collapseWsGo_true_head : ∀ (l : List Char),
    ((collapseWsGo true l).head?.elim false isPyWs) = false
  | [] => rfl
  | c :: cs => by
    have hstep : collapseWsGo true (c :: cs) =
        (if isPyWs c then collapseWsGo true cs else c :: collapseWsGo false cs) := rfl
    rw [hstep]
    by_cases h : isPyWs c
    · rw [if_pos h]
      exact collapseWsGo_true_head cs
    · rw [if_neg h]
      simpa using h

theorem collapseWs_noAdj : ∀ (l : List Char) (p : Bool),
    noAdjacentWs (collapseWsGo p l) = true
  | [], _ => rfl
  | c :: cs, p => by
    by_cases h : isPyWs c
    · cases p with
      | true =>
        have hstep : collapseWsGo true (c :: cs) = collapseWsGo true cs := by
          show (if isPyWs c then collapseWsGo true cs
            else c :: collapseWsGo false cs) = collapseWsGo true cs
          rw [if_pos h]
        rw [hstep]
        exact collapseWs_noAdj cs true
      | false =>
        have hstep : collapseWsGo false (c :: cs) = ' ' :: collapseWsGo true cs := by
          show (if isPyWs c then ' ' :: collapseWsGo true cs
            else c :: collapseWsGo false cs) = ' ' :: collapseWsGo true cs
          rw [if_pos h]
        rw [hstep, noAdj_cons, Bool.and_eq_true]
        refine ⟨?_, collapseWs_noAdj cs true⟩
        cases hh : (collapseWsGo true cs).head? with
        | none => rfl
        | some b =>
          have hb := collapseWsGo_true_head cs
          rw [hh] at hb
          have hb2 : isPyWs b = false := by simpa using hb
          simp [hb2]
    · have hstep : collapseWsGo p (c :: cs) = c :: collapseWsGo false cs := by
        show (if isPyWs c then (if p then collapseWsGo true cs
          else ' ' :: collapseWsGo true cs) else c :: collapseWsGo false cs) =
          c :: collapseWsGo false cs
        rw [if_neg h]
      rw [hstep, noAdj_cons, Bool.and_eq_true]
      refine ⟨?_, collapseWs_noAdj cs false⟩
      cases hh : (collapseWsGo false cs).head? with
      | none => rfl
      | some b =>
        have h2 : isPyWs c = false := by simpa using h
        simp [h2]

theorem collapseWs_only_space : ∀ (l : List Char) (p : Bool) (c : Char),
    c ∈ collapseWsGo p l → isPyWs c = true → c = ' '
  | [], p, c, hm, _ => by simp [collapseWsGo] at hm
  | d :: ds, p, c, hm, hw => by
    by_cases h : isPyWs d
    · cases p with
      | true =>
        have hstep : collapseWsGo true (d :: ds) = collapseWsGo true ds := by
          show (if isPyWs d then collapseWsGo true ds
            else d :: collapseWsGo false ds) = collapseWsGo true ds
          rw [if_pos h]
        rw [hstep] at hm
        exact collapseWs_only_space ds true c hm hw
      | false =>
        have hstep : collapseWsGo false (d :: ds) = ' ' :: collapseWsGo true ds := by
          show (if isPyWs d then ' ' :: collapseWsGo true ds
            else d :: collapseWsGo false ds) = ' ' :: collapseWsGo true ds
          rw [if_pos h]
        rw [hstep] at hm
        rcases List.mem_cons.mp hm with rfl | hm2
        · rfl
        · exact collapseWs_only_space ds true c hm2 hw
    · have hstep : collapseWsGo p (d :: ds) = d :: collapseWsGo false ds := by
        show (if isPyWs d then (if p then collapseWsGo true ds
          else ' ' :: collapseWsGo true ds) else d :: collapseWsGo false ds) =
          d :: collapseWsGo false ds
        rw [if_neg h]
      rw [hstep] at hm
      rcases List.mem_cons.mp hm with rfl | hm2
      · exact absurd hw (by simpa using h)
      · exact collapseWs_only_space ds false c hm2 hw

theorem splitOnSpace_ne_nil : ∀ (l : List Char), splitOnSpace l ≠ []
  | [] => by simp [splitOnSpace]
  | c :: cs => by
    by_cases h : (c == ' ') = true
    · have hstep : splitOnSpace (c :: cs) = [] :: splitOnSpace cs := by
        show (if c == ' ' then [] :: splitOnSpace cs else _) = _
        rw [if_pos h]
      rw [hstep]
      exact List.cons_ne_nil _ _
    · have hstep : splitOnSpace (c :: cs) =
          (match splitOnSpace cs with
            | t :: ts => (c :: t) :: ts
            | [] => [[c]]) := by
        show (if c == ' ' then [] :: splitOnSpace cs else _) = _
        rw [if_neg h]
      rw [hstep]
      cases splitOnSpace cs
      · exact List.cons_ne_nil _ _
      · exact List.cons_ne_nil _ _

theorem flatten_splitOnSpace : ∀ (l : List Char) (c : Char),
    c ∈ (splitOnSpace l).flatten → c ∈ l ∧ (c == ' ') = false
  | [], c, hm => by simp [splitOnSpace] at hm
  | d :: ds, c, hm => by
    by_cases h : (d == ' ') = true
    · have hstep : splitOnSpace (d :: ds) = [] :: splitOnSpace ds := by
        show (if d == ' ' then [] :: splitOnSpace ds else _) = _
        rw [if_pos h]
      rw [hstep, List.flatten_cons, List.nil_append] at hm
      obtain ⟨h1, h2⟩ := flatten_splitOnSpace ds c hm
      exact ⟨List.mem_cons_of_mem d h1, h2⟩
    · cases hs : splitOnSpace ds with
      | nil => exact absurd hs (splitOnSpace_ne_nil ds)
      | cons t ts =>
        have hstep : splitOnSpace (d :: ds) = (d :: t) :: ts := by
          show (if d == ' ' then [] :: splitOnSpace ds
            else (match splitOnSpace ds with
              | t :: ts => (d :: t) :: ts
              | [] => [[d]])) = (d :: t) :: ts
          rw [if_neg h, hs]
        rw [hstep, List.flatten_cons, List.cons_append] at hm
        rcases List.mem_cons.mp hm with rfl | hm2
        · exact ⟨List.mem_cons_self _ _, by simpa using h⟩
        · have hm3 : c ∈ (splitOnSpace ds).flatten := by
            rw [hs, List.flatten_cons]
            exact hm2
          obtain ⟨h1, h2⟩ := flatten_splitOnSpace ds c hm3
          exact ⟨List.mem_cons_of_mem d h1, h2⟩

theorem head?_insertGaps : ∀ (l : List Char), (insertGaps l).head? = l.head?
  | [] => rfl
  | [_] => rfl
  | a :: b :: t => by
    have hstep : insertGaps (a :: b :: t) =
        (if isLowerTrans a && isUpperTrans b then a :: ' ' :: insertGaps (b :: t)
          else a :: insertGaps (b :: t)) := rfl
    rw [hstep]
    by_cases h : isLowerTrans a && isUpperTrans b
    · rw [if_pos h]
      rfl
    · rw [if_neg h]
      rfl

theorem insertGaps_noAdj : ∀ (l : List Char),
    (∀ c ∈ l, isPyWs c = false) → noAdjacentWs (insertGaps l) = true
  | [], _ => rfl
  | [_], _ => rfl
  | a :: b :: t, hws => by
    have hrec := insertGaps_noAdj (b :: t)
      (fun c hc => hws c (List.mem_cons_of_mem a hc))
    have hstep : insertGaps (a :: b :: t) =
        (if isLowerTrans a && isUpperTrans b then a :: ' ' :: insertGaps (b :: t)
          else a :: insertGaps (b :: t)) := rfl
    have hb : (insertGaps (b :: t)).head? = some b := by rw [head?_insertGaps]; rfl
    have hwa : isPyWs a = false := hws a (List.mem_cons_self _ _)
    have hwb : isPyWs b = false :=
      hws b (List.mem_cons_of_mem a (List.mem_cons_self _ _))
    rw [hstep]
    by_cases h : isLowerTrans a && isUpperTrans b
    · rw [if_pos h, noAdj_cons, Bool.and_eq_true]
      constructor
      · simp [hwa]
      · rw [noAdj_cons, Bool.and_eq_true]
        refine ⟨?_, hrec⟩
        rw [hb]
        simp [hwb]
    · rw [if_neg h, noAdj_cons, Bool.and_eq_true]
      refine ⟨?_, hrec⟩
      rw [hb]
      simp [hwa]

theorem mem_pyStripL (c : Char) (l : List Char) (h : c ∈ pyStripL l) : c ∈ l := by
  rw [pyStripL, List.mem_reverse] at h
  have h2 := List.dropWhile_subset isPyWs h
  rw [List.mem_reverse] at h2
  exact List.dropWhile_subset isPyWs h2

theorem clean_core_props (t3 : List Char) (h : noAdjacentWs t3 = true) :
    titledFrom false (pyStripL (pyTitle t3)) = true ∧
    noAdjacentWs (pyStripL (pyTitle t3)) = true ∧
    ((pyStripL (pyTitle t3)).head?.elim false isPyWs) = false ∧
    ((pyStripL (pyTitle t3)).getLast?.elim false isPyWs) = false :=
  ⟨titled_strip_title t3,
   noAdj_pyStripL _ (noAdj_pyTitleGo t3 false h),
   pyStripL_head _, pyStripL_last _⟩

theorem clean_title_props (t : String) :
    pyTitledOk (_clean_title t) = true ∧ collapsedOk (_clean_title t) = true := by
  have h2 : noAdjacentWs (pyStripL (collapseWsGo false (collapseDots t.data))) =
      true := noAdj_pyStripL _ (collapseWs_noAdj _ false)
  have hflat : ∀ c ∈ (splitOnSpace
      (pyStripL (collapseWsGo false (collapseDots t.data)))).flatten,
      isPyWs c = false := by
    intro c hc
    obtain ⟨hmem, hsp⟩ := flatten_splitOnSpace _ c hc
    cases hw : isPyWs c with
    | false => rfl
    | true =>
      have hsc := collapseWs_only_space (collapseDots t.data) false c
        (mem_pyStripL c _ hmem) hw
      rw [hsc] at hsp
      simp at hsp
  have hno3 : noAdjacentWs
      (if singleRatioHigh
          ((splitOnSpace (pyStripL (collapseWsGo false
            (collapseDots t.data)))).filter (fun w => w.length == 1)).length
          (splitOnSpace (pyStripL (collapseWsGo false
            (collapseDots t.data)))).length
        then insertGaps (splitOnSpace (pyStripL (collapseWsGo false
          (collapseDots t.data)))).flatten
        else pyStripL (collapseWsGo false (collapseDots t.data))) = true := by
    by_cases hs : singleRatioHigh
        ((splitOnSpace (pyStripL (collapseWsGo false
          (collapseDots t.data)))).filter (fun w => w.length == 1)).length
        (splitOnSpace (pyStripL (collapseWsGo false
          (collapseDots t.data)))).length
    · rw [if_pos hs]
      exact insertGaps_noAdj _ hflat
    · rw [if_neg hs]
      exact h2
  have hcore := clean_core_props _ hno3
  constructor
  · exact hcore.1
  · show (noAdjacentWs (_clean_title t).data &&
      !((_clean_title t).data.head?.elim false isPyWs) &&
      !((_clean_title t).data.getLast?.elim false isPyWs)) = true
    have e1 : noAdjacentWs (_clean_title t).data = true := hcore.2.1
    have e2 : ((_clean_title t).data.head?.elim false isPyWs) = false :=
      hcore.2.2.1
    have e3 : ((_clean_title t).data.getLast?.elim false isPyWs) = false :=
      hcore.2.2.2
    rw [e1, e2, e3]
    rfl

theorem singleRatioHigh_eq (s l : Nat) :
    singleRatioHigh s l = (decide (l ≠ 0) && decide (3 * l ≤ 5 * s)) := by
  rcases Nat.eq_zero_or_pos l with h | h
  · subst h
    simp [singleRatioHigh]
  · rw [singleRatioHigh]
    congr 1
    rw [decide_eq_decide, ge_iff_le,
      show (0.6 : ℚ) = ((3 : Nat) : ℚ) / ((5 : Nat) : ℚ) by norm_num,
      ratio_ge_iff s l 3 5 h (by norm_num)]
    omega

/-- Counterexample to C10 as stated: `_clean_title "e-mail de prueba"`
is `"E-Mail De Prueba"` (Python `str.title()` starts a new capitalized
run after any non-letter, here the hyphen), whose whitespace-word
`E-Mail` has the upper-case `M` after its first letter — so the result
is not title-cased in the claimed sense of "each word's first letter
upper-cased, the rest lower-cased". -/
theorem c10_counterexample :
    _clean_title "e-mail de prueba" = "E-Mail De Prueba" ∧
    titledClaim "E-Mail De Prueba" = false := by
  constructor
  · simp only [_clean_title]
    rw [singleRatioHigh_eq]
    decide
  · decide

/-- C10 (amended): every PDF section title is passed through
`_clean_title` (chapter heads and substantial subchapters alike, as the
`pdfBuildSections` characterization shows), and the result of
`_clean_title` is always Python-title-cased — each maximal run of cased
letters starts upper-case and continues lower-case, so a non-letter
inside a word starts a new capitalized run — with collapsed whitespace
(no adjacent, leading or trailing whitespace), regardless of the
original casing. -/
theorem c10_title_casing (t : String) (pt : Nat → String)
    (sm : Nat → List (String × Nat)) (total : Nat) (chs : List (String × Nat))
    (idx : Nat) :
    pyTitledOk (_clean_title t) = true ∧
    collapsedOk (_clean_title t) = true ∧
    (∀ sec ∈ pdfBuildSections pt sm total chs idx,
      pyTitledOk sec.1 = true ∧ collapsedOk sec.1 = true) := by
  refine ⟨(clean_title_props t).1, (clean_title_props t).2, ?_⟩
  intro sec hsec
  rw [pdfBuildSections_eq, List.mem_flatMap] at hsec
  obtain ⟨q, hq, hmem⟩ := hsec
  rcases List.mem_cons.mp hmem with rfl | hmem2
  · exact clean_title_props _
  · rw [List.mem_map] at hmem2
    obtain ⟨p, hp, rfl⟩ := hmem2
    rw [subSections_eq, List.mem_map] at hp
    obtain ⟨r, hr, rfl⟩ := hp
    exact clean_title_props _

/-- Witness for C10: the always-emitted chapter head of a one-chapter
outline is in the build output (hypothesis discharged concretely), and
the title predicates hold for it and for a mixed-case input. -/
theorem c10_witness :
    ((_clean_title "uno", chapPages 0 3, 2) ∈
      pdfBuildSections fixPageText (fun _ => []) 3 [("uno", 0)] 0) ∧
    pyTitledOk (_clean_title "título de PRUEBA") = true ∧
    collapsedOk (_clean_title "título de PRUEBA") = true ∧
    pyTitledOk (_clean_title "uno") = true ∧
    collapsedOk (_clean_title "uno") = true := by
  have hmem : (_clean_title "uno", chapPages 0 3, 2) ∈
      pdfBuildSections fixPageText (fun _ => []) 3 [("uno", 0)] 0 :=
    List.mem_cons_self _ _
  have h := c10_title_casing "título de PRUEBA" fixPageText (fun _ => []) 3
    [("uno", 0)] 0
  exact ⟨hmem, h.1, h.2.1, (h.2.2 _ hmem).1, (h.2.2 _ hmem).2⟩
